import Mathlib

/-!
Verification of the instanced-panel buffer-group allocator of the uikit
repository.

The group-level code (class `InstancedPanelGroup` in
`src/packages/uikit/src/panel/instanced-panel-group.ts`) is embedded
directly from the source.  The sorted-bucket allocator it calls
(`addToSortedBuckets`, `removeFromSortedBuckets`,
`updateSortedBucketsAllocation`, `resizeSortedBucketsSpace` from
`../allocation/sorted-buckets.js`) is not part of the available sources;
those functions are modelled from the specification (spec.md sections 3,
4.1 and 4.2), as stated in their doc comments.

Modelling conventions:
* Panels (elements) are identified by natural-number ids.  The 16-float
  block of per-instance transform data a slot holds is abstracted to one
  natural number per slot (`dataOf id = id + 1`, nonzero, for a live
  element; `0` for a cleared block).  Every operation of the source acts
  on whole aligned 16-float blocks (`fill(0, 16*i, 16*i+16)`,
  `copyWithin` and `set` at multiples of 16), so block granularity is an
  exact abstraction.
* `performance.now()` and `setTimeout` are modelled with an explicit
  clock: every external event carries a timestamp, and the single
  pending timeout (`nextUpdateTimeoutRef`) is modelled by its absolute
  fire time.
* Fallible reads are made explicit: an operation returns `none` when the
  source would dereference `undefined` (the unguarded
  `this.buckets[this.buckets.length - 1]` read in `updateCount`, and the
  `this.mesh!` non-null assertions in `update`).
-/

namespace UikitAlloc

/-- Data value a live element writes into its slot of the (block
granularity) instance-matrix array; nonzero, so a cleared slot (`0`) is
distinguishable.  Models the 16 floats of a panel's transform, written
through the activation contract (spec section 6). -/
def dataOf (id : Nat) : Nat := id + 1

/-- Modelled from the spec: a bucket of the sorted-bucket allocator
(spec section 3).  `elements` is the ordered list of placed slots:
`some id` is a live element, `none` is a hole left by a deferred
(slow-path) removal — the spec keeps the stale slot occupied until
compaction runs (section 4.2), so holes still count toward the bucket's
span.  `pending` holds elements inserted on the slow path whose slot is
not yet known (section 4.1). -/
structure Bucket where
  bucketIndex : Nat
  offset : Nat
  elements : List (Option Nat)
  pending : List Nat
deriving DecidableEq, Repr

/-- Span of slots a bucket currently occupies (`elements.length` in the
source's `updateCount`; holes included). -/
def bucketSpan (b : Bucket) : Nat := b.elements.length

/-- Live placed elements of a bucket together with their slot index
inside the bucket, accumulating from position `i`. -/
def liveWithSlotsFrom (i : Nat) : List (Option Nat) → List (Nat × Nat)
  | [] => []
  | none :: rest => liveWithSlotsFrom (i + 1) rest
  | some id :: rest => (i, id) :: liveWithSlotsFrom (i + 1) rest

/-- Live placed elements of a bucket with their in-bucket slot index. -/
def liveWithSlots (es : List (Option Nat)) : List (Nat × Nat) :=
  liveWithSlotsFrom 0 es

/-- Live placed element ids of a bucket, in slot order. -/
def liveElems (b : Bucket) : List Nat := (liveWithSlots b.elements).map Prod.snd

/-- Number of live elements a bucket will hold after compaction (placed
live elements plus pending ones). -/
def bucketNewCount (b : Bucket) : Nat := (liveElems b).length + b.pending.length

/-- Total number of slots currently spanned by the buckets. -/
def totalSpan (bs : List Bucket) : Nat := (bs.map bucketSpan).sum

/-- Total number of live elements (placed live plus pending) in the
buckets; this is what the group's `elementCount` field tracks. -/
def structCount (bs : List Bucket) : Nat :=
  (bs.map bucketNewCount).sum

/-- The mesh state the group owns (`InstancedPanelMesh`): its instance
draw count and visibility flag. -/
structure Mesh where
  count : Nat
  visible : Bool
deriving DecidableEq, Repr

/-- The `nextUpdateTime` field of `InstancedPanelGroup`: either the
`nextFrame` symbol or an absolute time (`performance.now() + time`). -/
inductive UpdTime
  | frame
  | time (t : Nat)
deriving DecidableEq, Repr

/-- State of one `InstancedPanelGroup` (fields of the source class,
plus an explicit `clock` for the event timestamps and a ghost counter
`updates` of how many times `update()` has been entered). -/
structure GroupState where
  buckets : List Bucket
  elementCount : Nat
  bufferElementSize : Nat
  matrixArray : List Nat
  mesh : Option Mesh
  nextUpdateTime : Option UpdTime
  timeoutAt : Option Nat
  clock : Nat
  updates : Nat
deriving DecidableEq, Repr

/-- Initial state of a freshly constructed group: no buckets, no
elements, zero capacity, no mesh, no scheduled update. -/
def initState : GroupState :=
  { buckets := [], elementCount := 0, bufferElementSize := 0,
    matrixArray := [], mesh := none, nextUpdateTime := none,
    timeoutAt := none, clock := 0, updates := 0 }

/-- Read of the slot array (block granularity); out-of-range reads give
the typed-array default `0`. -/
def getSlot (arr : List Nat) (i : Nat) : Nat := arr.getD i 0

/-- Modelled from the spec: the placement pass of `addToSortedBuckets`
(spec section 4.1).  Walks the index-sorted bucket list; `start` is the
slot where a bucket created at the current position would begin (the
running end of the preceding buckets).  Finds or creates the bucket for
`bktIdx` (the source uses binary search; on a sorted list the located
position is the same).  The element is placed in the next free slot past
the bucket's logical end exactly when that bucket is the last bucket and
slack remains inside the group's reserved capacity (`cap`); then its
data is written and `needsRearrange = false` is returned.  Otherwise the
element joins the bucket's pending list and `true` is returned.
Returns (new buckets, new array, needsRearrange). -/
def addIntoBuckets (cap id bktIdx : Nat) (arr : List Nat) :
    List Bucket → Nat → List Bucket × List Nat × Bool
  | [], start =>
    if start < cap then
      ([⟨bktIdx, start, [some id], []⟩], arr.set start (dataOf id), false)
    else
      ([⟨bktIdx, start, [], [id]⟩], arr, true)
  | b :: rest, start =>
    if bktIdx < b.bucketIndex then
      (⟨bktIdx, start, [], [id]⟩ :: b :: rest, arr, true)
    else if bktIdx = b.bucketIndex then
      if rest.isEmpty then
        if b.offset + b.elements.length < cap then
          ([{ b with elements := b.elements ++ [some id] }],
            arr.set (b.offset + b.elements.length) (dataOf id), false)
        else
          ([{ b with pending := b.pending ++ [id] }], arr, true)
      else
        ({ b with pending := b.pending ++ [id] } :: rest, arr, true)
    else
      match addIntoBuckets cap id bktIdx arr rest (b.offset + b.elements.length) with
      | (rest', arr', needs) => (b :: rest', arr', needs)

/-- Modelled from the spec: `removeFromSortedBuckets` (spec section
4.1), acting on the element at slot `slotIdx` of the bucket keyed
`bktIdx`.  If the element is the last in its bucket and its bucket is
the last bucket, the slot is cleared in place (the group's
`clearBufferAt` writes a zero block) and `false` is returned; a bucket
whose element count reaches zero is removed (spec section 3 lifecycle).
Otherwise the removal leaves a hole to be closed by the deferred
compaction and `true` is returned.
Returns (new buckets, new array, needsRearrange). -/
def removeIntoBuckets (bktIdx slotIdx : Nat) (arr : List Nat) :
    List Bucket → List Bucket × List Nat × Bool
  | [] => ([], arr, true)
  | b :: rest =>
    if b.bucketIndex = bktIdx then
      if rest.isEmpty && (slotIdx + 1 == b.elements.length) then
        let elements' := b.elements.dropLast
        let arr' := arr.set (b.offset + slotIdx) 0
        (if elements'.isEmpty && b.pending.isEmpty then []
          else [{ b with elements := elements' }], arr', false)
      else
        ({ b with elements := b.elements.set slotIdx none } :: rest, arr, true)
    else
      match removeIntoBuckets bktIdx slotIdx arr rest with
      | (rest', arr', needs) => (b :: rest', arr', needs)

/-- Modelled from the spec: removal of a slow-path-inserted element that
is still pending (it has no slot, so nothing is cleared; the removal
still reports `needsRearrange = true`).  A bucket left with no elements
at all is removed (spec section 3 lifecycle). -/
def removePendingBuckets (bktIdx pendingIdx : Nat) :
    List Bucket → List Bucket
  | [] => []
  | b :: rest =>
    if b.bucketIndex = bktIdx then
      let pending' := b.pending.eraseIdx pendingIdx
      if b.elements.isEmpty && pending'.isEmpty then rest
      else { b with pending := pending' } :: rest
    else b :: removePendingBuckets bktIdx pendingIdx rest

/-- Modelled from the spec: the bucket side of the rearrangement pass
`updateSortedBucketsAllocation` (spec section 4.1): each bucket's offset
becomes the running sum of the preceding buckets' element counts, holes
are squeezed out, pending elements are appended, and buckets whose
element count reached zero are removed (spec section 3 lifecycle). -/
def rebuildBuckets : List Bucket → Nat → List Bucket
  | [], _ => []
  | b :: rest, start =>
    let ids := liveElems b ++ b.pending
    if ids.isEmpty then rebuildBuckets rest start
    else ⟨b.bucketIndex, start, ids.map some, []⟩ ::
      rebuildBuckets rest (start + ids.length)

/-- Values the rearrangement pass writes, in destination-slot order:
for each bucket, the data of its live elements read from their current
slots of the pre-pass array, then the data each pending element writes
on activation. -/
def gatheredValues (arr : List Nat) : List Bucket → List Nat
  | [] => []
  | b :: rest =>
    (liveWithSlots b.elements).map (fun p => getSlot arr (b.offset + p.1))
      ++ b.pending.map dataOf
      ++ gatheredValues arr rest

/-- Modelled from the spec: the array side of the rearrangement pass.
The newly computed slots form the contiguous prefix `[0, n)` of the
array (running-sum offsets starting at zero), each receiving the value
gathered from the pre-pass array; slots past the compacted prefix keep
their old (possibly stale) contents, and writes beyond the array's
length are dropped, as typed-array writes out of range are. -/
def rearrangeArray (arr : List Nat) (bs : List Bucket) : List Nat :=
  let vs := gatheredValues arr bs
  (vs ++ arr.drop vs.length).take arr.length

/-- Modelled from the spec: `updateSortedBucketsAllocation` applied to
the group state (spec section 4.1 rearrange). -/
def updateSortedBucketsAllocation (s : GroupState) : GroupState :=
  { s with buckets := rebuildBuckets s.buckets 0,
           matrixArray := rearrangeArray s.matrixArray s.buckets }

/-- Modelled from the spec: `resizeSortedBucketsSpace` recomputes the
space the buckets may use for the new capacity without moving any
backing-array contents (spec section 4.1); placed offsets are unchanged
— the reserved slack is implicit here as capacity minus occupied span —
so on the bucket structure it is the identity. -/
def resizeSortedBucketsSpace (bs : List Bucket) (_oldSize _newSize : Nat) :
    List Bucket := bs

/-- Growth target `Math.ceil(n * 1.5)` of `resize()` (exact for the
relevant range of JavaScript doubles). -/
def ceil15 (n : Nat) : Nat := (3 * n + 1) / 2

/-- Array reallocation of `resize()`: a fresh zero-filled array of the
new length receiving the old array's overlapping prefix
(`newArray.set(old.subarray(0, newArray.length))`). -/
def resizeArray (arr : List Nat) (newLen : Nat) : List Nat :=
  (arr.take newLen) ++ List.replicate (newLen - arr.length) 0

/-- The source's `resize()`: sets the capacity to `ceil(elementCount *
1.5)`, calls `resizeSortedBucketsSpace`, reallocates the arrays
preserving the overlapping prefix, and constructs a fresh mesh (so
`mesh` is never `null` after any `resize()`); the new mesh's count and
visibility are set by the caller right afterwards. -/
def resize (s : GroupState) : GroupState :=
  let newCap := ceil15 s.elementCount
  { s with
    bufferElementSize := newCap,
    buckets := resizeSortedBucketsSpace s.buckets s.bufferElementSize newCap,
    matrixArray := resizeArray s.matrixArray newCap,
    mesh := some { count := 0, visible := true } }

/-- The source's `updateCount()`: reads
`this.buckets[this.buckets.length - 1]` without a guard — on an empty
bucket array that read yields `undefined` and the following `.offset`
access faults (`none`).  Otherwise, if the mesh exists, its count
becomes the end of the last bucket and it is visible iff that count is
positive. -/
def updateCount (s : GroupState) : Option GroupState :=
  match s.buckets.getLast? with
  | none => none
  | some lastBucket =>
    let count := lastBucket.offset + lastBucket.elements.length
    match s.mesh with
    | none => some s
    | some _ =>
      some { s with mesh := some { count := count, visible := decide (0 < count) } }

/-- The source's `requestUpdateNextFrame()`: marks the update to run on
the very next frame and cancels any pending timeout. -/
def requestUpdateNextFrame (s : GroupState) : GroupState :=
  { s with nextUpdateTime := some UpdTime.frame, timeoutAt := none }

/-- The source's `requestUpdate(time)` called at clock `now`: keeps an
already-pending next-frame request or an earlier deadline; otherwise
records the new deadline `now + time` and (re)arms the single timeout. -/
def requestUpdate (s : GroupState) (now t : Nat) : GroupState :=
  if s.nextUpdateTime = some UpdTime.frame then s
  else
    match s.nextUpdateTime with
    | some (UpdTime.time u) =>
      if u < now + t then s
      else { s with nextUpdateTime := some (UpdTime.time (now + t)),
                    timeoutAt := some (now + t) }
    | _ => { s with nextUpdateTime := some (UpdTime.time (now + t)),
                    timeoutAt := some (now + t) }

/-- Final statements of the source's `update()` for a nonzero element
count: `this.mesh!.count = this.elementCount; this.mesh!.visible =
true`.  The non-null assertion faults (`none`) when the mesh is
missing. -/
def setMeshCount (s : GroupState) : Option GroupState :=
  match s.mesh with
  | none => none
  | some _ =>
    some { s with mesh := some { count := s.elementCount, visible := true } }

/-- Ghost bump of the `update()` entry counter. -/
def bumpUpdates (s : GroupState) : GroupState :=
  { s with updates := s.updates + 1 }

/-- The source's `update()`: with no elements it only hides the mesh;
with too many elements it resizes (growing) and then rearranges; with at
most a third of the capacity used it rearranges first and then resizes
(shrinking); otherwise it rearranges in place.  Finally the draw count
is set to the element count and the mesh made visible. -/
def update (s0 : GroupState) : Option GroupState :=
  if s0.elementCount = 0 then
    some { bumpUpdates s0 with
      mesh := s0.mesh.map (fun m => { m with visible := false }) }
  else if s0.bufferElementSize < s0.elementCount then
    setMeshCount (updateSortedBucketsAllocation (resize (bumpUpdates s0)))
  else if 3 * s0.elementCount ≤ s0.bufferElementSize then
    setMeshCount (resize (updateSortedBucketsAllocation (bumpUpdates s0)))
  else
    setMeshCount (updateSortedBucketsAllocation (bumpUpdates s0))

/-- The source's `insert(bucketIndex, panel)`: increments the element
count, delegates to the allocator; on the fast path (no rearrangement
needed, the element's data already written in place) it refreshes the
draw count, otherwise it requests an undebounced next-frame update. -/
def insert (s : GroupState) (bktIdx id : Nat) : Option GroupState :=
  match addIntoBuckets s.bufferElementSize id bktIdx s.matrixArray s.buckets 0 with
  | (bs, arr, needs) =>
    if needs then
      some (requestUpdateNextFrame
        { s with elementCount := s.elementCount + 1, buckets := bs, matrixArray := arr })
    else
      updateCount
        { s with elementCount := s.elementCount + 1, buckets := bs, matrixArray := arr }

/-- The source's `delete(bucketIndex, elementIndex, panel)` for a placed
element, identified by its bucket and its slot inside the bucket (the
source's optional `elementIndex`; when it is `undefined` the allocator
locates the same element by a linear scan, with the same result):
decrements the element count, delegates to the allocator; on the fast
path it refreshes the draw count, otherwise it requests an update
debounced by one second. -/
def deleteOp (s : GroupState) (now bktIdx slotIdx : Nat) : Option GroupState :=
  match removeIntoBuckets bktIdx slotIdx s.matrixArray s.buckets with
  | (bs, arr, needs) =>
    if needs then
      some (requestUpdate
        { s with elementCount := s.elementCount - 1, buckets := bs, matrixArray := arr }
        now 1000)
    else
      updateCount
        { s with elementCount := s.elementCount - 1, buckets := bs, matrixArray := arr }

/-- The source's `delete` for an element still pending from a slow-path
insert (it has no slot yet): the allocator drops it from the pending
list and reports that a rearrangement is needed. -/
def deletePendingOp (s : GroupState) (now bktIdx pendingIdx : Nat) :
    Option GroupState :=
  some (requestUpdate
    { s with elementCount := s.elementCount - 1,
             buckets := removePendingBuckets bktIdx pendingIdx s.buckets }
    now 1000)

/-- The source's `onFrame()`: runs the pending update exactly when one
was requested for the next frame, clearing the request first. -/
def onFrame (s : GroupState) : Option GroupState :=
  if s.nextUpdateTime = some UpdTime.frame then
    update { s with nextUpdateTime := none }
  else some s

/-- External events driving one group, each carrying its clock time:
insertion, deletion of a placed or a still-pending element, the
per-frame tick, and the firing of the armed timeout (whose callback is
`requestUpdateNextFrame`). -/
inductive Event
  | insertE (t bktIdx id : Nat)
  | deleteE (t bktIdx slotIdx : Nat)
  | deletePendingE (t bktIdx pendingIdx : Nat)
  | onFrameE (t : Nat)
  | timerFireE (t : Nat)
deriving DecidableEq, Repr

/-- Timestamp of an event. -/
def eventTime : Event → Nat
  | Event.insertE t _ _ => t
  | Event.deleteE t _ _ => t
  | Event.deletePendingE t _ _ => t
  | Event.onFrameE t => t
  | Event.timerFireE t => t

/-- First bucket with the given key in the (sorted, duplicate-free)
bucket list. -/
def findBucket (bs : List Bucket) (bktIdx : Nat) : Option Bucket :=
  bs.find? (fun b => b.bucketIndex == bktIdx)

/-- A placed live element exists at slot `slotIdx` of bucket `bktIdx`. -/
def hasLiveAt (bs : List Bucket) (bktIdx slotIdx : Nat) : Bool :=
  match findBucket bs bktIdx with
  | some b => (b.elements.getD slotIdx none).isSome
  | none => false

/-- A pending element exists at position `pendingIdx` of bucket
`bktIdx`'s pending list. -/
def hasPendingAt (bs : List Bucket) (bktIdx pendingIdx : Nat) : Bool :=
  match findBucket bs bktIdx with
  | some b => pendingIdx < b.pending.length
  | none => false

/-- Event timing is admissible: the clock is monotone and no event other
than the timer callback itself runs later than the armed timeout's due
time (the single-threaded host runs the due timer first); the timer
callback fires exactly at its due time. -/
def timeOk (s : GroupState) (t : Nat) : Bool :=
  decide (s.clock ≤ t) &&
    (match s.timeoutAt with
     | some u => decide (t ≤ u)
     | none => true)

/-- Validity of an event in a state: timing is admissible and a deleted
element actually exists. -/
def validEvent (s : GroupState) : Event → Bool
  | Event.insertE t _ _ => timeOk s t
  | Event.deleteE t b i => timeOk s t && hasLiveAt s.buckets b i
  | Event.deletePendingE t b i => timeOk s t && hasPendingAt s.buckets b i
  | Event.onFrameE t => timeOk s t
  | Event.timerFireE t => decide (s.clock ≤ t) && (s.timeoutAt == some t)

/-- Effect of an event on the state (the clock advances to the event's
time); `none` is a runtime fault of the modelled source. -/
def applyEvent (e : Event) (s : GroupState) : Option GroupState :=
  match e with
  | Event.insertE t b id => insert { s with clock := t } b id
  | Event.deleteE t b i => deleteOp { s with clock := t } t b i
  | Event.deletePendingE t b i => deletePendingOp { s with clock := t } t b i
  | Event.onFrameE t => onFrame { s with clock := t }
  | Event.timerFireE t => some (requestUpdateNextFrame { s with clock := t })

/-- Run a list of events, requiring each to be valid and fault-free. -/
def runValid (s : GroupState) : List Event → Option GroupState
  | [] => some s
  | e :: es =>
    if validEvent s e then
      match applyEvent e s with
      | some s' => runValid s' es
      | none => none
    else none

/-- One valid, fault-free step of the group. -/
inductive Step : GroupState → GroupState → Prop
  | mk (e : Event) (s s' : GroupState) (hv : validEvent s e = true)
      (ha : applyEvent e s = some s') : Step s s'

/-- States reachable from the initial state by valid, fault-free
steps. -/
def Reachable (s : GroupState) : Prop :=
  Relation.ReflTransGen Step initState s

end UikitAlloc

namespace UikitAlloc

/-! ## Invariants -/

/-- Buckets are sorted strictly ascending by bucket index. -/
def IdxSorted (bs : List Bucket) : Prop :=
  bs.Pairwise (fun a c => a.bucketIndex < c.bucketIndex)

/-- Buckets partition a contiguous run of slots beginning at `start`:
the first bucket's offset is `start` and each bucket begins where the
previous one ends. -/
def ContigFrom (start : Nat) : List Bucket → Prop
  | [] => True
  | b :: rest => b.offset = start ∧ ContigFrom (b.offset + b.elements.length) rest

instance instDecContigFrom (start : Nat) : (bs : List Bucket) → Decidable (ContigFrom start bs)
  | [] => isTrue trivial
  | b :: rest =>
    have : Decidable (ContigFrom (b.offset + b.elements.length) rest) :=
      instDecContigFrom _ rest
    inferInstanceAs (Decidable (_ ∧ _))

/-- The slot of a placed live element holds that element's data. -/
def SlotOk (arr : List Nat) (off : Nat) (es : List (Option Nat)) (i : Nat) : Prop :=
  ∀ id, es.getD i none = some id → getSlot arr (off + i) = dataOf id

instance instDecSlotOk (arr : List Nat) (off : Nat) (es : List (Option Nat)) (i : Nat) :
    Decidable (SlotOk arr off es i) :=
  match h : es.getD i none with
  | none => isTrue (fun id hid => absurd (h.symm.trans hid) (by simp))
  | some id0 =>
    if hv : getSlot arr (off + i) = dataOf id0 then
      isTrue (fun id hid => by
        rw [h] at hid
        cases hid
        exact hv)
    else isFalse (fun hall => hv (hall id0 h))

/-- Every placed live element's slot holds its data. -/
def DataOkOn (arr : List Nat) (bs : List Bucket) : Prop :=
  ∀ b ∈ bs, ∀ i < b.elements.length, SlotOk arr b.offset b.elements i

/-- The mesh exists once the capacity is positive (the capacity is made
positive only by `resize()`, which constructs the mesh). -/
def MeshInv (s : GroupState) : Prop :=
  1 ≤ s.bufferElementSize → s.mesh.isSome = true

instance instDecMeshInv (s : GroupState) : Decidable (MeshInv s) :=
  if h : 1 ≤ s.bufferElementSize then
    if hm : s.mesh.isSome = true then isTrue (fun _ => hm)
    else isFalse (fun f => hm (f h))
  else isTrue (fun hc => absurd hc h)

/-- Structural invariant of a group state: buckets sorted and
contiguous from slot 0, the array sized to the capacity, mesh present
once the capacity is positive, the element count agreeing with the
bucket structure, the occupied span within capacity, and every live
slot holding its element's data. -/
def Inv (s : GroupState) : Prop :=
  IdxSorted s.buckets ∧ ContigFrom 0 s.buckets ∧
  s.matrixArray.length = s.bufferElementSize ∧
  MeshInv s ∧
  s.elementCount = structCount s.buckets ∧
  totalSpan s.buckets ≤ s.bufferElementSize ∧
  DataOkOn s.matrixArray s.buckets

/-- Live element ids of the buckets in order, pending ones included. -/
def allIds : List Bucket → List Nat
  | [] => []
  | b :: rest => (liveElems b ++ b.pending) ++ allIds rest

/-- The allocator's needs-rearrange answer for an insertion, as seen by
the group (`addToSortedBuckets`'s return value). -/
def insertNeeds (s : GroupState) (bktIdx id : Nat) : Bool :=
  (addIntoBuckets s.bufferElementSize id bktIdx s.matrixArray s.buckets 0).2.2

/-- The allocator's needs-rearrange answer for a removal
(`removeFromSortedBuckets`'s return value). -/
def removeNeeds (s : GroupState) (bktIdx slotIdx : Nat) : Bool :=
  (removeIntoBuckets bktIdx slotIdx s.matrixArray s.buckets).2.2

/-! ## Concrete states used by witnesses and counterexamples

Each is built by running a concrete valid event trace from the initial
state, so it is reachable by construction. -/

/-- Trace: one slow-path insert and the frame tick that places it. -/
def traceOne : List Event := [Event.insertE 0 0 0, Event.onFrameE 1]

/-- Group with one element placed (capacity 2). -/
def stateOne : GroupState := (runValid initState traceOne).getD initState

/-- Trace: a second, fast-path insert on top of `traceOne`. -/
def traceTwo : List Event := traceOne ++ [Event.insertE 2 0 1]

/-- Group with two elements placed, capacity 2 (full). -/
def stateTwo : GroupState := (runValid initState traceTwo).getD initState

/-- Trace: a third insert (slow, buffer full) and the frame tick that
grows the buffer and places it. -/
def traceThree : List Event := traceTwo ++ [Event.insertE 3 0 2, Event.onFrameE 4]

/-- Group with three elements placed, capacity 5. -/
def stateThree : GroupState := (runValid initState traceThree).getD initState

/-- Group with a pending 1-second delayed update: a slow-path delete of
the first of the three elements at time 10 (deadline 1010). -/
def statePendingTimer : GroupState :=
  (runValid initState (traceThree ++ [Event.deleteE 10 0 0])).getD initState

/-- Group with zero elements but capacity 2: a slow-path delete of the
first element of `stateTwo` followed by a fast-path delete of the
second. -/
def stateEmptyCap2 : GroupState :=
  (runValid initState (traceTwo ++ [Event.deleteE 3 0 0, Event.deleteE 4 0 1])).getD initState

/-- Trace like `traceThree` but using bucket index 5, followed by a
slow-path delete at time 10; an insert into a smaller bucket index is
then a slow-path insert. -/
def traceB : List Event :=
  [Event.insertE 0 5 0, Event.onFrameE 1, Event.insertE 2 5 1,
   Event.insertE 3 5 2, Event.onFrameE 4, Event.deleteE 10 5 0]

/-- Group (bucket index 5, three elements, one slow-deleted) with a
pending 1-second delayed update whose deadline is 1010. -/
def statePendingTimerB : GroupState := (runValid initState traceB).getD initState

/-! ## Reachability of concretely constructed states -/

theorem runValid_reachable : ∀ (es : List Event) (s s' : GroupState),
    Reachable s → runValid s es = some s' → Reachable s' := by
  intro es
  induction es with
  | nil => intro s s' hs h; cases h; exact hs
  | cons e es ih =>
    intro s s' hs h
    unfold runValid at h
    by_cases hv : validEvent s e = true
    · rw [if_pos hv] at h
      cases ha : applyEvent e s with
      | none => rw [ha] at h; cases h
      | some s1 =>
        rw [ha] at h
        exact ih s1 s' (Relation.ReflTransGen.tail hs (Step.mk e s s1 hv ha)) h
    · rw [if_neg hv] at h; cases h

end UikitAlloc

namespace UikitAlloc

/-! ## Field lemmas for the state transformers -/

theorem bumpUpdates_buckets (s : GroupState) : (bumpUpdates s).buckets = s.buckets := rfl

theorem bumpUpdates_elementCount (s : GroupState) :
    (bumpUpdates s).elementCount = s.elementCount := rfl

theorem bumpUpdates_cap (s : GroupState) :
    (bumpUpdates s).bufferElementSize = s.bufferElementSize := rfl

theorem bumpUpdates_mesh (s : GroupState) : (bumpUpdates s).mesh = s.mesh := rfl

theorem bumpUpdates_matrixArray (s : GroupState) :
    (bumpUpdates s).matrixArray = s.matrixArray := rfl

theorem bumpUpdates_updates (s : GroupState) : (bumpUpdates s).updates = s.updates + 1 := rfl

theorem resize_cap (s : GroupState) :
    (resize s).bufferElementSize = ceil15 s.elementCount := rfl

theorem resize_buckets (s : GroupState) : (resize s).buckets = s.buckets := rfl

theorem resize_elementCount (s : GroupState) : (resize s).elementCount = s.elementCount := rfl

theorem resize_mesh (s : GroupState) : (resize s).mesh = some { count := 0, visible := true } := rfl

theorem resize_matrixArray (s : GroupState) :
    (resize s).matrixArray = resizeArray s.matrixArray (ceil15 s.elementCount) := rfl

theorem resize_updates (s : GroupState) : (resize s).updates = s.updates := rfl

theorem usba_buckets (s : GroupState) :
    (updateSortedBucketsAllocation s).buckets = rebuildBuckets s.buckets 0 := rfl

theorem usba_matrixArray (s : GroupState) :
    (updateSortedBucketsAllocation s).matrixArray = rearrangeArray s.matrixArray s.buckets := rfl

theorem usba_elementCount (s : GroupState) :
    (updateSortedBucketsAllocation s).elementCount = s.elementCount := rfl

theorem usba_cap (s : GroupState) :
    (updateSortedBucketsAllocation s).bufferElementSize = s.bufferElementSize := rfl

theorem usba_mesh (s : GroupState) : (updateSortedBucketsAllocation s).mesh = s.mesh := rfl

theorem usba_updates (s : GroupState) : (updateSortedBucketsAllocation s).updates = s.updates := rfl

theorem setMeshCount_spec (s s' : GroupState) (h : setMeshCount s = some s') :
    s'.bufferElementSize = s.bufferElementSize ∧ s'.matrixArray = s.matrixArray ∧
    s'.elementCount = s.elementCount ∧ s'.buckets = s.buckets ∧
    s'.updates = s.updates ∧ s'.nextUpdateTime = s.nextUpdateTime ∧
    s'.timeoutAt = s.timeoutAt ∧
    s'.mesh = some { count := s.elementCount, visible := true } := by
  unfold setMeshCount at h
  cases hm : s.mesh with
  | none => rw [hm] at h; cases h
  | some m => rw [hm] at h; cases h; exact ⟨rfl, rfl, rfl, rfl, rfl, rfl, rfl, rfl⟩

theorem setMeshCount_isSome (s : GroupState) (h : s.mesh.isSome = true) :
    (setMeshCount s).isSome = true := by
  unfold setMeshCount
  cases hm : s.mesh with
  | none => rw [hm] at h; cases h
  | some m => simp

theorem requestUpdate_fields (s : GroupState) (now t : Nat) :
    (requestUpdate s now t).bufferElementSize = s.bufferElementSize ∧
    (requestUpdate s now t).mesh = s.mesh ∧
    (requestUpdate s now t).updates = s.updates ∧
    (requestUpdate s now t).elementCount = s.elementCount ∧
    (requestUpdate s now t).buckets = s.buckets ∧
    (requestUpdate s now t).matrixArray = s.matrixArray ∧
    (requestUpdate s now t).clock = s.clock := by
  unfold requestUpdate
  split
  · exact ⟨rfl, rfl, rfl, rfl, rfl, rfl, rfl⟩
  · split
    · rename_i u _
      by_cases hu : u < now + t
      · rw [if_pos hu]; exact ⟨rfl, rfl, rfl, rfl, rfl, rfl, rfl⟩
      · rw [if_neg hu]; exact ⟨rfl, rfl, rfl, rfl, rfl, rfl, rfl⟩
    · exact ⟨rfl, rfl, rfl, rfl, rfl, rfl, rfl⟩

/-! ## Branch characterization of update() -/

theorem n_le_ceil15 (n : Nat) : n ≤ ceil15 n := by
  unfold ceil15
  omega

theorem update_eq_zero (s : GroupState) (h : s.elementCount = 0) :
    update s = some { bumpUpdates s with
      mesh := s.mesh.map (fun m => { m with visible := false }) } := by
  unfold update
  rw [if_pos h]

theorem update_eq_grow (s : GroupState) (h : s.bufferElementSize < s.elementCount) :
    update s = setMeshCount (updateSortedBucketsAllocation (resize (bumpUpdates s))) := by
  unfold update
  have h0 : ¬ s.elementCount = 0 := by omega
  rw [if_neg h0, if_pos h]

theorem update_eq_shrink (s : GroupState) (h0 : s.elementCount ≠ 0)
    (h1 : ¬ s.bufferElementSize < s.elementCount)
    (h2 : 3 * s.elementCount ≤ s.bufferElementSize) :
    update s = setMeshCount (resize (updateSortedBucketsAllocation (bumpUpdates s))) := by
  unfold update
  rw [if_neg h0, if_neg h1, if_pos h2]

theorem update_eq_inplace (s : GroupState) (h0 : s.elementCount ≠ 0)
    (h1 : ¬ s.bufferElementSize < s.elementCount)
    (h2 : ¬ 3 * s.elementCount ≤ s.bufferElementSize) :
    update s = setMeshCount (updateSortedBucketsAllocation (bumpUpdates s)) := by
  unfold update
  rw [if_neg h0, if_neg h1, if_neg h2]

theorem update_succeeds (s : GroupState) (hm : MeshInv s) : (update s).isSome = true := by
  by_cases h0 : s.elementCount = 0
  · rw [update_eq_zero s h0]; rfl
  · by_cases h1 : s.bufferElementSize < s.elementCount
    · rw [update_eq_grow s h1]
      exact setMeshCount_isSome _ (by rw [usba_mesh, resize_mesh]; rfl)
    · by_cases h2 : 3 * s.elementCount ≤ s.bufferElementSize
      · rw [update_eq_shrink s h0 h1 h2]
        exact setMeshCount_isSome _ (by rw [resize_mesh]; rfl)
      · rw [update_eq_inplace s h0 h1 h2]
        have hcap : 1 ≤ s.bufferElementSize := by omega
        exact setMeshCount_isSome _ (by rw [usba_mesh, bumpUpdates_mesh]; exact hm hcap)

theorem update_ghost (s s' : GroupState) (h : update s = some s') :
    s'.updates = s.updates + 1 ∧ s'.nextUpdateTime = s.nextUpdateTime ∧
    s'.timeoutAt = s.timeoutAt := by
  by_cases h0 : s.elementCount = 0
  · rw [update_eq_zero s h0] at h
    cases h
    exact ⟨rfl, rfl, rfl⟩
  · by_cases h1 : s.bufferElementSize < s.elementCount
    · rw [update_eq_grow s h1] at h
      have := setMeshCount_spec _ _ h
      exact ⟨this.2.2.2.2.1, this.2.2.2.2.2.1, this.2.2.2.2.2.2.1⟩
    · by_cases h2 : 3 * s.elementCount ≤ s.bufferElementSize
      · rw [update_eq_shrink s h0 h1 h2] at h
        have := setMeshCount_spec _ _ h
        exact ⟨this.2.2.2.2.1, this.2.2.2.2.2.1, this.2.2.2.2.2.2.1⟩
      · rw [update_eq_inplace s h0 h1 h2] at h
        have := setMeshCount_spec _ _ h
        exact ⟨this.2.2.2.2.1, this.2.2.2.2.2.1, this.2.2.2.2.2.2.1⟩

end UikitAlloc

namespace UikitAlloc

/-! ## Field preservation of the group operations -/

theorem onFrame_of_frame (s : GroupState) (h : s.nextUpdateTime = some UpdTime.frame) :
    onFrame s = update { s with nextUpdateTime := none } := by
  unfold onFrame
  rw [if_pos h]

theorem onFrame_of_not_frame (s : GroupState) (h : ¬ s.nextUpdateTime = some UpdTime.frame) :
    onFrame s = some s := by
  unfold onFrame
  rw [if_neg h]

theorem updateCount_spec (s s' : GroupState) (h : updateCount s = some s') :
    s'.bufferElementSize = s.bufferElementSize ∧ s'.mesh.isSome = s.mesh.isSome ∧
    s'.buckets = s.buckets ∧ s'.matrixArray = s.matrixArray ∧
    s'.elementCount = s.elementCount ∧ s'.updates = s.updates ∧
    s'.nextUpdateTime = s.nextUpdateTime ∧ s'.timeoutAt = s.timeoutAt ∧
    s'.clock = s.clock := by
  unfold updateCount at h
  cases hl : s.buckets.getLast? with
  | none => rw [hl] at h; cases h
  | some lb =>
    rw [hl] at h
    cases hm : s.mesh with
    | none =>
      rw [hm] at h
      cases h
      refine ⟨rfl, ?_, rfl, rfl, rfl, rfl, rfl, rfl, rfl⟩
      simp [hm]
    | some m =>
      rw [hm] at h
      cases h
      refine ⟨rfl, ?_, rfl, rfl, rfl, rfl, rfl, rfl, rfl⟩
      simp [hm]

theorem insert_spec (s s' : GroupState) (b id : Nat) (h : insert s b id = some s') :
    s'.bufferElementSize = s.bufferElementSize ∧ s'.mesh.isSome = s.mesh.isSome ∧
    s'.elementCount = s.elementCount + 1 ∧ s'.updates = s.updates := by
  unfold insert at h
  cases h3 : addIntoBuckets s.bufferElementSize id b s.matrixArray s.buckets 0 with
  | mk bs rest =>
    cases rest with
    | mk arr needs =>
      rw [h3] at h
      dsimp only at h
      cases needs with
      | true => rw [if_pos rfl] at h; cases h; exact ⟨rfl, rfl, rfl, rfl⟩
      | false =>
        rw [if_neg (by simp)] at h
        have := updateCount_spec _ _ h
        exact ⟨this.1, this.2.1, this.2.2.2.2.1, this.2.2.2.2.2.1⟩

theorem deleteOp_spec (s s' : GroupState) (now b i : Nat) (h : deleteOp s now b i = some s') :
    s'.bufferElementSize = s.bufferElementSize ∧ s'.mesh.isSome = s.mesh.isSome ∧
    s'.elementCount = s.elementCount - 1 ∧ s'.updates = s.updates := by
  unfold deleteOp at h
  cases h3 : removeIntoBuckets b i s.matrixArray s.buckets with
  | mk bs rest =>
    cases rest with
    | mk arr needs =>
      rw [h3] at h
      dsimp only at h
      cases needs with
      | true =>
        rw [if_pos rfl] at h
        cases h
        have hf := requestUpdate_fields
          { s with elementCount := s.elementCount - 1, buckets := bs, matrixArray := arr } now 1000
        exact ⟨hf.1, by rw [hf.2.1], hf.2.2.2.1, hf.2.2.1⟩
      | false =>
        rw [if_neg (by simp)] at h
        have := updateCount_spec _ _ h
        exact ⟨this.1, this.2.1, this.2.2.2.2.1, this.2.2.2.2.2.1⟩

theorem deletePendingOp_spec (s s' : GroupState) (now b i : Nat)
    (h : deletePendingOp s now b i = some s') :
    s'.bufferElementSize = s.bufferElementSize ∧ s'.mesh.isSome = s.mesh.isSome ∧
    s'.elementCount = s.elementCount - 1 ∧ s'.updates = s.updates := by
  unfold deletePendingOp at h
  cases h
  have hf := requestUpdate_fields
    { s with elementCount := s.elementCount - 1,
             buckets := removePendingBuckets b i s.buckets } now 1000
  exact ⟨hf.1, by rw [hf.2.1], hf.2.2.2.1, hf.2.2.1⟩

/-! ## MeshInv is preserved by every step -/

theorem update_meshInv (s s' : GroupState) (h : update s = some s') (hm : MeshInv s) :
    MeshInv s' := by
  by_cases h0 : s.elementCount = 0
  · rw [update_eq_zero s h0] at h
    cases h
    intro hcap
    have := hm hcap
    cases hms : s.mesh with
    | none => rw [hms] at this; cases this
    | some m => simp [hms]
  · by_cases h1 : s.bufferElementSize < s.elementCount
    · rw [update_eq_grow s h1] at h
      have := setMeshCount_spec _ _ h
      intro _
      rw [this.2.2.2.2.2.2.2]
      rfl
    · by_cases h2 : 3 * s.elementCount ≤ s.bufferElementSize
      · rw [update_eq_shrink s h0 h1 h2] at h
        have := setMeshCount_spec _ _ h
        intro _
        rw [this.2.2.2.2.2.2.2]
        rfl
      · rw [update_eq_inplace s h0 h1 h2] at h
        have := setMeshCount_spec _ _ h
        intro _
        rw [this.2.2.2.2.2.2.2]
        rfl

theorem onFrame_meshInv (s s' : GroupState) (h : onFrame s = some s') (hm : MeshInv s) :
    MeshInv s' := by
  unfold onFrame at h
  split at h
  · exact update_meshInv _ _ h hm
  · cases h; exact hm

theorem step_meshInv (s s' : GroupState) (hstep : Step s s') (hm : MeshInv s) : MeshInv s' := by
  cases hstep with
  | mk e s s' hv ha =>
    cases e with
    | insertE t b id =>
      have := insert_spec _ _ _ _ ha
      intro hcap
      rw [this.1] at hcap
      rw [this.2.1]
      exact hm hcap
    | deleteE t b i =>
      have := deleteOp_spec _ _ _ _ _ ha
      intro hcap
      rw [this.1] at hcap
      rw [this.2.1]
      exact hm hcap
    | deletePendingE t b i =>
      have := deletePendingOp_spec _ _ _ _ _ ha
      intro hcap
      rw [this.1] at hcap
      rw [this.2.1]
      exact hm hcap
    | onFrameE t => exact onFrame_meshInv _ _ ha hm
    | timerFireE t => cases ha; exact hm

theorem reachable_meshInv (s : GroupState) (hr : Reachable s) : MeshInv s := by
  induction hr with
  | refl => intro hcap; cases hcap
  | tail _ hstep ih => exact step_meshInv _ _ hstep ih

end UikitAlloc

namespace UikitAlloc

/-! ## Reachability of the concrete states -/

theorem stateOne_reachable : Reachable stateOne :=
  runValid_reachable traceOne initState stateOne Relation.ReflTransGen.refl (by decide)

theorem stateTwo_reachable : Reachable stateTwo :=
  runValid_reachable traceTwo initState stateTwo Relation.ReflTransGen.refl (by decide)

theorem stateThree_reachable : Reachable stateThree :=
  runValid_reachable traceThree initState stateThree Relation.ReflTransGen.refl (by decide)

theorem statePendingTimer_reachable : Reachable statePendingTimer :=
  runValid_reachable (traceThree ++ [Event.deleteE 10 0 0]) initState statePendingTimer
    Relation.ReflTransGen.refl (by decide)

theorem stateEmptyCap2_reachable : Reachable stateEmptyCap2 :=
  runValid_reachable (traceTwo ++ [Event.deleteE 3 0 0, Event.deleteE 4 0 1]) initState
    stateEmptyCap2 Relation.ReflTransGen.refl (by decide)

/-! ## C9 -/

/-- C9: in every reachable state with at least one live element,
`update()` never faults on its `this.mesh!` non-null assertions: the
in-place and shrink branches run only when the capacity is positive,
the capacity is made positive only by `resize()`, and every `resize()`
constructs the mesh, so the mesh is present when the draw count is
assigned. -/
theorem c9_update_mesh_safe (s : GroupState) (hr : Reachable s)
    (_hn : 1 ≤ s.elementCount) : (update s).isSome = true :=
  update_succeeds s (reachable_meshInv s hr)

theorem c9_witness :
    Reachable stateOne ∧ 1 ≤ stateOne.elementCount ∧ (update stateOne).isSome = true :=
  ⟨stateOne_reachable, by decide,
    c9_update_mesh_safe stateOne stateOne_reachable (by decide)⟩

/-! ## C2 -/

/-- C2 counterexample: a reachable state with zero live elements and
capacity 2.  The claim's shrink rule applies (`n <= cap / 3` holds at
`n = 0`) and demands the capacity become `ceil(0 * 1.5) = 0`, but
`update()` returns early on `n == 0` and leaves the capacity at 2. -/
theorem c2_counterexample :
    Reachable stateEmptyCap2 ∧ stateEmptyCap2.elementCount = 0 ∧
    stateEmptyCap2.bufferElementSize = 2 ∧
    3 * stateEmptyCap2.elementCount ≤ stateEmptyCap2.bufferElementSize ∧
    (update stateEmptyCap2).map GroupState.bufferElementSize = some 2 ∧
    ceil15 stateEmptyCap2.elementCount = 0 :=
  ⟨stateEmptyCap2_reachable, by decide, by decide, by decide, by decide, by decide⟩

/-- C2 amended: for update() calls with at least one live element
(`n >= 1`): growth (`n > cap`) and shrink (`n <= cap / 3`, i.e.
`3n <= cap`) set the capacity to `ceil(n * 1.5)`, otherwise the
capacity is unchanged, and in all cases the final capacity is at least
`n`.  (At `n = 0` update() returns early and the capacity is
unchanged.) -/
theorem c2_capacity_hysteresis_amended (s : GroupState) (hn : 1 ≤ s.elementCount) :
    (s.bufferElementSize < s.elementCount →
      ∀ s', update s = some s' → s'.bufferElementSize = ceil15 s.elementCount) ∧
    (3 * s.elementCount ≤ s.bufferElementSize →
      ∀ s', update s = some s' → s'.bufferElementSize = ceil15 s.elementCount) ∧
    (s.elementCount ≤ s.bufferElementSize → s.bufferElementSize < 3 * s.elementCount →
      ∀ s', update s = some s' → s'.bufferElementSize = s.bufferElementSize) ∧
    (∀ s', update s = some s' → s.elementCount ≤ s'.bufferElementSize) := by
  have h0 : s.elementCount ≠ 0 := by omega
  refine ⟨?_, ?_, ?_, ?_⟩
  · intro h1 s' h
    rw [update_eq_grow s h1] at h
    have hsp := setMeshCount_spec _ _ h
    rw [hsp.1, usba_cap, resize_cap, bumpUpdates_elementCount]
  · intro h2 s' h
    by_cases h1 : s.bufferElementSize < s.elementCount
    · rw [update_eq_grow s h1] at h
      have hsp := setMeshCount_spec _ _ h
      rw [hsp.1, usba_cap, resize_cap, bumpUpdates_elementCount]
    · rw [update_eq_shrink s h0 h1 h2] at h
      have hsp := setMeshCount_spec _ _ h
      rw [hsp.1, resize_cap, usba_elementCount, bumpUpdates_elementCount]
  · intro hle hlt s' h
    have h1 : ¬ s.bufferElementSize < s.elementCount := by omega
    have h2 : ¬ 3 * s.elementCount ≤ s.bufferElementSize := by omega
    rw [update_eq_inplace s h0 h1 h2] at h
    have hsp := setMeshCount_spec _ _ h
    rw [hsp.1, usba_cap, bumpUpdates_cap]
  · intro s' h
    by_cases h1 : s.bufferElementSize < s.elementCount
    · rw [update_eq_grow s h1] at h
      have hsp := setMeshCount_spec _ _ h
      rw [hsp.1, usba_cap, resize_cap, bumpUpdates_elementCount]
      exact n_le_ceil15 _
    · by_cases h2 : 3 * s.elementCount ≤ s.bufferElementSize
      · rw [update_eq_shrink s h0 h1 h2] at h
        have hsp := setMeshCount_spec _ _ h
        rw [hsp.1, resize_cap, usba_elementCount, bumpUpdates_elementCount]
        exact n_le_ceil15 _
      · rw [update_eq_inplace s h0 h1 h2] at h
        have hsp := setMeshCount_spec _ _ h
        rw [hsp.1, usba_cap, bumpUpdates_cap]
        omega

theorem c2_witness :
    1 ≤ stateTwo.elementCount ∧
    (∀ s', update stateTwo = some s' → stateTwo.elementCount ≤ s'.bufferElementSize) :=
  ⟨by decide, (c2_capacity_hysteresis_amended stateTwo (by decide)).2.2.2⟩

/-! ## C7 -/

/-- C7: update() with zero live elements hides the mesh and performs no
reallocation (capacity and array unchanged); with at least one live
element (and the mesh invariant, which holds in every reachable state)
it sets the mesh's draw count to the element count and makes the mesh
visible. -/
theorem c7_update_draw_count (s : GroupState) :
    (s.elementCount = 0 → ∃ s', update s = some s' ∧
      s'.bufferElementSize = s.bufferElementSize ∧
      s'.matrixArray = s.matrixArray ∧
      (∀ m, s'.mesh = some m → m.visible = false)) ∧
    (1 ≤ s.elementCount → MeshInv s → ∃ s', update s = some s' ∧
      s'.mesh = some { count := s.elementCount, visible := true }) := by
  constructor
  · intro h0
    refine ⟨_, update_eq_zero s h0, rfl, rfl, ?_⟩
    intro m hm
    cases hms : s.mesh with
    | none =>
      rw [show ({ bumpUpdates s with
          mesh := s.mesh.map (fun m => { m with visible := false }) } : GroupState).mesh
        = s.mesh.map (fun m => { m with visible := false }) from rfl, hms] at hm
      cases hm
    | some m0 =>
      rw [show ({ bumpUpdates s with
          mesh := s.mesh.map (fun m => { m with visible := false }) } : GroupState).mesh
        = s.mesh.map (fun m => { m with visible := false }) from rfl, hms] at hm
      cases hm
      rfl
  · intro hn hm
    have h0 : s.elementCount ≠ 0 := by omega
    have hs := update_succeeds s hm
    cases hu : update s with
    | none => rw [hu] at hs; cases hs
    | some s' =>
      refine ⟨s', rfl, ?_⟩
      by_cases h1 : s.bufferElementSize < s.elementCount
      · rw [update_eq_grow s h1] at hu
        have hsp := setMeshCount_spec _ _ hu
        rw [hsp.2.2.2.2.2.2.2, usba_elementCount, resize_elementCount, bumpUpdates_elementCount]
      · by_cases h2 : 3 * s.elementCount ≤ s.bufferElementSize
        · rw [update_eq_shrink s h0 h1 h2] at hu
          have hsp := setMeshCount_spec _ _ hu
          rw [hsp.2.2.2.2.2.2.2, resize_elementCount, usba_elementCount, bumpUpdates_elementCount]
        · rw [update_eq_inplace s h0 h1 h2] at hu
          have hsp := setMeshCount_spec _ _ hu
          rw [hsp.2.2.2.2.2.2.2, usba_elementCount, bumpUpdates_elementCount]

theorem c7_witness :
    1 ≤ stateOne.elementCount ∧ MeshInv stateOne ∧
    (∃ s', update stateOne = some s' ∧
      s'.mesh = some { count := stateOne.elementCount, visible := true }) :=
  ⟨by decide, by decide, (c7_update_draw_count stateOne).2 (by decide) (by decide)⟩

end UikitAlloc

namespace UikitAlloc

/-! ## C4 -/

/-- C4 counterexample: in a reachable state with a delayed (debounced)
rearrangement pending (deadline 1010), a fast-path insert (which needs
no rearrangement) is valid, yet after it the timer is still armed and
the pending work was not converted to a next-frame request — the
rearrangement still runs only after the original delay. -/
theorem c4_counterexample :
    Reachable statePendingTimer ∧
    statePendingTimer.timeoutAt = some 1010 ∧
    statePendingTimer.nextUpdateTime = some (UpdTime.time 1010) ∧
    validEvent statePendingTimer (Event.insertE 11 0 3) = true ∧
    insertNeeds statePendingTimer 0 3 = false ∧
    (applyEvent (Event.insertE 11 0 3) statePendingTimer).map
      (fun s' => (s'.timeoutAt, s'.nextUpdateTime)) =
      some (some 1010, some (UpdTime.time 1010)) :=
  ⟨statePendingTimer_reachable, by decide, by decide, by decide, by decide, by decide⟩

/-- C4 amended: an insert that itself requires a rearrangement (the
allocator reports `needsRearrange = true`) arriving while a delayed
rearrangement is pending cancels the armed timer and converts the
pending work into a next-frame request; the next `onFrame()` tick then
runs `update()` (it cannot fault when the mesh invariant holds). -/
theorem c4_slow_insert_cancels_timer (s : GroupState) (t b id u : Nat)
    (_hto : s.timeoutAt = some u)
    (hneeds : insertNeeds s b id = true) :
    ∃ s', applyEvent (Event.insertE t b id) s = some s' ∧
      s'.timeoutAt = none ∧ s'.nextUpdateTime = some UpdTime.frame ∧
      (MeshInv s → ∀ t2, (applyEvent (Event.onFrameE t2) s').isSome = true) ∧
      (∀ t2 s'', applyEvent (Event.onFrameE t2) s' = some s'' →
        s''.updates = s.updates + 1) := by
  show ∃ s', insert { s with clock := t } b id = some s' ∧ _
  unfold insert
  unfold insertNeeds at hneeds
  dsimp only
  cases h3 : addIntoBuckets s.bufferElementSize id b s.matrixArray s.buckets 0 with
  | mk bs rest =>
    cases rest with
    | mk arr needs =>
      rw [h3] at hneeds
      dsimp only at hneeds
      subst hneeds
      dsimp only
      rw [if_pos rfl]
      refine ⟨_, rfl, rfl, rfl, ?_, ?_⟩
      · intro hm t2
        show (onFrame _).isSome = true
        rw [onFrame_of_frame _ rfl]
        exact update_succeeds _ (fun hcap => hm hcap)
      · intro t2 s'' h''
        replace h'' : onFrame _ = some s'' := h''
        rw [onFrame_of_frame _ rfl] at h''
        exact (update_ghost _ _ h'').1

theorem c4_witness :
    statePendingTimerB.timeoutAt = some 1010 ∧
    insertNeeds statePendingTimerB 2 9 = true ∧
    (∃ s', applyEvent (Event.insertE 11 2 9) statePendingTimerB = some s' ∧
      s'.timeoutAt = none ∧ s'.nextUpdateTime = some UpdTime.frame ∧
      (MeshInv statePendingTimerB →
        ∀ t2, (applyEvent (Event.onFrameE t2) s').isSome = true) ∧
      (∀ t2 s'', applyEvent (Event.onFrameE t2) s' = some s'' →
        s''.updates = statePendingTimerB.updates + 1)) :=
  ⟨by decide, by decide,
    c4_slow_insert_cancels_timer statePendingTimerB 11 2 9 1010 (by decide) (by decide)⟩

end UikitAlloc

namespace UikitAlloc

/-! ## C5 -/

/-- The event is a deletion. -/
def isDeleteEvent : Event → Bool
  | Event.deleteE _ _ _ => true
  | Event.deletePendingE _ _ _ => true
  | _ => false

/-- The deletion takes the slow path in the given state (the allocator
reports that a rearrangement is needed). -/
def isSlowIn (s : GroupState) : Event → Bool
  | Event.deleteE _ b i => removeNeeds s b i
  | Event.deletePendingE _ _ _ => true
  | _ => false

/-- The event list is a run of valid slow-path deletions from the given
state. -/
def slowDeleteRun : GroupState → List Event → Bool
  | _, [] => true
  | s, e :: es =>
    isDeleteEvent e && isSlowIn s e && validEvent s e &&
      (match applyEvent e s with
       | some s' => slowDeleteRun s' es
       | none => false)

theorem requestUpdate_keeps_deadline (s : GroupState) (now t1 : Nat)
    (hnt : s.nextUpdateTime = some (UpdTime.time (t1 + 1000)))
    (_hto : s.timeoutAt = some (t1 + 1000))
    (hlo : t1 ≤ now) :
    requestUpdate s now 1000 = s ∨
    requestUpdate s now 1000 =
      { s with nextUpdateTime := some (UpdTime.time (t1 + 1000)),
               timeoutAt := some (t1 + 1000) } := by
  unfold requestUpdate
  rw [if_neg (by rw [hnt]; intro hcontra; cases hcontra), hnt]
  dsimp only
  by_cases hu : t1 + 1000 < now + 1000
  · left
    rw [if_pos hu]
  · right
    rw [if_neg hu]
    have hset : now + 1000 = t1 + 1000 := by omega
    rw [hset]

theorem requestUpdate_sets_deadline (s : GroupState) (now t1 : Nat)
    (hnt : s.nextUpdateTime = none) (hnow : now = t1) :
    requestUpdate s now 1000 =
      { s with nextUpdateTime := some (UpdTime.time (t1 + 1000)),
               timeoutAt := some (t1 + 1000) } := by
  unfold requestUpdate
  rw [if_neg (by rw [hnt]; intro hcontra; cases hcontra), hnt, hnow]

/-- One valid slow-path deletion keeps an already-armed deadline
`t1 + 1000` and its timer unchanged, and runs no update. -/
theorem slowDelete_step (s : GroupState) (e : Event) (t1 : Nat)
    (hdel : isDeleteEvent e = true) (hslow : isSlowIn s e = true)
    (hv : validEvent s e = true)
    (hnt : s.nextUpdateTime = some (UpdTime.time (t1 + 1000)))
    (hto : s.timeoutAt = some (t1 + 1000))
    (hlo : t1 ≤ s.clock) :
    ∃ s', applyEvent e s = some s' ∧
      s'.nextUpdateTime = some (UpdTime.time (t1 + 1000)) ∧
      s'.timeoutAt = some (t1 + 1000) ∧ t1 ≤ s'.clock ∧ s'.clock ≤ t1 + 1000 ∧
      s'.updates = s.updates ∧ s'.bufferElementSize = s.bufferElementSize ∧
      s'.mesh.isSome = s.mesh.isSome := by
  cases e with
  | insertE t b id => cases hdel
  | onFrameE t => cases hdel
  | timerFireE t => cases hdel
  | deleteE t b i =>
    have htime : s.clock ≤ t ∧ t ≤ t1 + 1000 := by
      unfold validEvent timeOk at hv
      rw [hto] at hv
      simp at hv
      exact hv.1
    show ∃ s', deleteOp { s with clock := t } t b i = some s' ∧ _
    unfold deleteOp
    dsimp only
    unfold isSlowIn removeNeeds at hslow
    dsimp only at hslow
    cases h3 : removeIntoBuckets b i s.matrixArray s.buckets with
    | mk bs rest =>
      cases rest with
      | mk arr needs =>
        rw [h3] at hslow
        dsimp only at hslow
        subst hslow
        dsimp only
        rw [if_pos rfl]
        have hk := requestUpdate_keeps_deadline
          { buckets := bs, elementCount := s.elementCount - 1,
            bufferElementSize := s.bufferElementSize, matrixArray := arr,
            mesh := s.mesh, nextUpdateTime := s.nextUpdateTime,
            timeoutAt := s.timeoutAt, clock := t, updates := s.updates }
          t t1 hnt hto (by omega)
        cases hk with
        | inl hk =>
          rw [hk]
          exact ⟨_, rfl, hnt, hto, by dsimp only; omega, by dsimp only; omega, rfl, rfl, rfl⟩
        | inr hk =>
          rw [hk]
          exact ⟨_, rfl, rfl, rfl, by dsimp only; omega, by dsimp only; omega, rfl, rfl, rfl⟩
  | deletePendingE t b i =>
    have htime : s.clock ≤ t ∧ t ≤ t1 + 1000 := by
      unfold validEvent timeOk at hv
      rw [hto] at hv
      simp at hv
      exact hv.1
    show ∃ s', deletePendingOp { s with clock := t } t b i = some s' ∧ _
    unfold deletePendingOp
    have hk := requestUpdate_keeps_deadline
      { buckets := removePendingBuckets b i s.buckets,
        elementCount := s.elementCount - 1,
        bufferElementSize := s.bufferElementSize, matrixArray := s.matrixArray,
        mesh := s.mesh, nextUpdateTime := s.nextUpdateTime,
        timeoutAt := s.timeoutAt, clock := t, updates := s.updates }
      t t1 hnt hto (by omega)
    cases hk with
    | inl hk =>
      rw [hk]
      exact ⟨_, rfl, hnt, hto, by dsimp only; omega, by dsimp only; omega, rfl, rfl, rfl⟩
    | inr hk =>
      rw [hk]
      exact ⟨_, rfl, rfl, rfl, by dsimp only; omega, by dsimp only; omega, rfl, rfl, rfl⟩

/-- A run of valid slow-path deletions keeps the armed deadline and
timer unchanged and runs no update. -/
theorem slowDeleteRun_keeps (t1 : Nat) : ∀ (es : List Event) (s : GroupState),
    slowDeleteRun s es = true →
    s.nextUpdateTime = some (UpdTime.time (t1 + 1000)) →
    s.timeoutAt = some (t1 + 1000) → t1 ≤ s.clock → s.clock ≤ t1 + 1000 →
    ∃ s', runValid s es = some s' ∧
      s'.nextUpdateTime = some (UpdTime.time (t1 + 1000)) ∧
      s'.timeoutAt = some (t1 + 1000) ∧ t1 ≤ s'.clock ∧ s'.clock ≤ t1 + 1000 ∧
      s'.updates = s.updates ∧ s'.bufferElementSize = s.bufferElementSize ∧
      s'.mesh.isSome = s.mesh.isSome := by
  intro es
  induction es with
  | nil =>
    intro s _ hnt hto hlo hhi
    exact ⟨s, rfl, hnt, hto, hlo, hhi, rfl, rfl, rfl⟩
  | cons e es ih =>
    intro s hrun hnt hto hlo hhi
    unfold slowDeleteRun at hrun
    rw [Bool.and_eq_true, Bool.and_eq_true, Bool.and_eq_true] at hrun
    obtain ⟨⟨⟨hdel, hslow⟩, hv⟩, hrest⟩ := hrun
    obtain ⟨s1, ha, h1, h2, h3, h4, h5, h6, h7⟩ :=
      slowDelete_step s e t1 hdel hslow hv hnt hto hlo
    rw [ha] at hrest
    obtain ⟨s', hrun', g1, g2, g3, g4, g5, g6, g7⟩ := ih s1 hrest h1 h2 h3 h4
    refine ⟨s', ?_, g1, g2, g3, g4, ?_, ?_, ?_⟩
    · unfold runValid
      rw [if_pos hv, ha]
      exact hrun'
    · rw [g5, h5]
    · rw [g6, h6]
    · rw [g7, h7]

/-- The first slow-path deletion (from a state with nothing scheduled)
arms the timer with deadline `eventTime + 1000`. -/
theorem slowDelete_first (s : GroupState) (e : Event) (t1 : Nat)
    (hdel : isDeleteEvent e = true) (hslow : isSlowIn s e = true)
    (hv : validEvent s e = true)
    (hnt : s.nextUpdateTime = none) (ht1 : eventTime e = t1) :
    ∃ s', applyEvent e s = some s' ∧
      s'.nextUpdateTime = some (UpdTime.time (t1 + 1000)) ∧
      s'.timeoutAt = some (t1 + 1000) ∧ t1 ≤ s'.clock ∧ s'.clock ≤ t1 + 1000 ∧
      s'.updates = s.updates ∧ s'.bufferElementSize = s.bufferElementSize ∧
      s'.mesh.isSome = s.mesh.isSome := by
  cases e with
  | insertE t b id => cases hdel
  | onFrameE t => cases hdel
  | timerFireE t => cases hdel
  | deleteE t b i =>
    simp only [eventTime] at ht1
    subst ht1
    show ∃ s', deleteOp { s with clock := t } t b i = some s' ∧ _
    unfold deleteOp
    dsimp only
    unfold isSlowIn removeNeeds at hslow
    dsimp only at hslow
    cases h3 : removeIntoBuckets b i s.matrixArray s.buckets with
    | mk bs rest =>
      cases rest with
      | mk arr needs =>
        rw [h3] at hslow
        dsimp only at hslow
        subst hslow
        dsimp only
        rw [if_pos rfl]
        have hk := requestUpdate_sets_deadline
          { buckets := bs, elementCount := s.elementCount - 1,
            bufferElementSize := s.bufferElementSize, matrixArray := arr,
            mesh := s.mesh, nextUpdateTime := s.nextUpdateTime,
            timeoutAt := s.timeoutAt, clock := t, updates := s.updates }
          t t hnt rfl
        rw [hk]
        exact ⟨_, rfl, rfl, rfl, by dsimp only; omega, by dsimp only; omega, rfl, rfl, rfl⟩
  | deletePendingE t b i =>
    simp only [eventTime] at ht1
    subst ht1
    show ∃ s', deletePendingOp { s with clock := t } t b i = some s' ∧ _
    unfold deletePendingOp
    dsimp only
    have hk := requestUpdate_sets_deadline
      { buckets := removePendingBuckets b i s.buckets,
        elementCount := s.elementCount - 1,
        bufferElementSize := s.bufferElementSize, matrixArray := s.matrixArray,
        mesh := s.mesh, nextUpdateTime := s.nextUpdateTime,
        timeoutAt := s.timeoutAt, clock := t, updates := s.updates }
      t t hnt rfl
    rw [hk]
    exact ⟨_, rfl, rfl, rfl, by dsimp only; omega, by dsimp only; omega, rfl, rfl, rfl⟩

end UikitAlloc

namespace UikitAlloc

/-- C5: any number of slow-path deletions arriving after a first one at
time `t1`, all before the debounce fires, are coalesced: the single
armed timer keeps deadline `t1 + 1000`, no update runs during the
deletions, the timer's firing converts the request to next-frame, the
next `onFrame()` tick runs `update()` exactly once and clears the
request, and further ticks run nothing. -/
theorem c5_debounce_coalescing (s0 : GroupState) (t1 u : Nat) (e1 : Event)
    (rest : List Event)
    (hmesh : MeshInv s0) (hnu : s0.nextUpdateTime = none) (_hto : s0.timeoutAt = none)
    (hrun : slowDeleteRun s0 (e1 :: rest) = true)
    (ht1 : eventTime e1 = t1) (hu : t1 + 1000 ≤ u) :
    ∃ s1 s2 s3, runValid s0 (e1 :: rest) = some s1 ∧
      s1.updates = s0.updates ∧
      s1.timeoutAt = some (t1 + 1000) ∧
      s1.nextUpdateTime = some (UpdTime.time (t1 + 1000)) ∧
      validEvent s1 (Event.timerFireE (t1 + 1000)) = true ∧
      applyEvent (Event.timerFireE (t1 + 1000)) s1 = some s2 ∧
      s2.updates = s0.updates ∧
      validEvent s2 (Event.onFrameE u) = true ∧
      applyEvent (Event.onFrameE u) s2 = some s3 ∧
      s3.updates = s0.updates + 1 ∧ s3.nextUpdateTime = none ∧
      (∀ u' s4, applyEvent (Event.onFrameE u') s3 = some s4 →
        s4.updates = s3.updates) := by
  unfold slowDeleteRun at hrun
  rw [Bool.and_eq_true, Bool.and_eq_true, Bool.and_eq_true] at hrun
  obtain ⟨⟨⟨hdel, hslow⟩, hv⟩, hrest⟩ := hrun
  obtain ⟨sA, haA, a1, a2, a3, a4, a5, a6, a7⟩ :=
    slowDelete_first s0 e1 t1 hdel hslow hv hnu ht1
  rw [haA] at hrest
  dsimp only at hrest
  obtain ⟨s1, hrun1, g1, g2, g3, g4, g5, g6, g7⟩ :=
    slowDeleteRun_keeps t1 rest sA hrest a1 a2 a3 a4
  have hs1run : runValid s0 (e1 :: rest) = some s1 := by
    unfold runValid
    rw [if_pos hv, haA]
    exact hrun1
  have hs1upd : s1.updates = s0.updates := by rw [g5, a5]
  have hs1cap : s1.bufferElementSize = s0.bufferElementSize := by rw [g6, a6]
  have hs1mesh : s1.mesh.isSome = s0.mesh.isSome := by rw [g7, a7]
  have hvt : validEvent s1 (Event.timerFireE (t1 + 1000)) = true := by
    show (decide (s1.clock ≤ t1 + 1000) && (s1.timeoutAt == some (t1 + 1000))) = true
    rw [Bool.and_eq_true]
    exact ⟨decide_eq_true (by omega), by rw [g2]; exact beq_self_eq_true _⟩
  have hvf : validEvent (requestUpdateNextFrame { s1 with clock := t1 + 1000 })
      (Event.onFrameE u) = true := by
    show (decide (t1 + 1000 ≤ u) && true) = true
    rw [Bool.and_eq_true]
    exact ⟨decide_eq_true hu, rfl⟩
  have hmX : MeshInv { requestUpdateNextFrame { s1 with clock := t1 + 1000 } with
      clock := u, nextUpdateTime := none } := by
    intro hcap
    show s1.mesh.isSome = true
    rw [hs1mesh]
    exact hmesh (by rw [← hs1cap]; exact hcap)
  have hsucc := update_succeeds _ hmX
  cases hupd : update { requestUpdateNextFrame { s1 with clock := t1 + 1000 } with
      clock := u, nextUpdateTime := none } with
  | none => rw [hupd] at hsucc; cases hsucc
  | some s3 =>
    have hg := update_ghost _ _ hupd
    have happly3 : applyEvent (Event.onFrameE u)
        (requestUpdateNextFrame { s1 with clock := t1 + 1000 }) = some s3 := by
      show onFrame _ = some s3
      rw [onFrame_of_frame _ rfl]
      exact hupd
    refine ⟨s1, requestUpdateNextFrame { s1 with clock := t1 + 1000 }, s3,
      hs1run, hs1upd, g2, g1, hvt, rfl, hs1upd, hvf, happly3, ?_, ?_, ?_⟩
    · rw [hg.1]
      show s1.updates + 1 = s0.updates + 1
      rw [hs1upd]
    · rw [hg.2.1]
    · intro u' s4 h4
      have hnt3 : s3.nextUpdateTime = none := by rw [hg.2.1]
      replace h4 : onFrame { s3 with clock := u' } = some s4 := h4
      rw [onFrame_of_not_frame _ (by
        show ¬ s3.nextUpdateTime = some UpdTime.frame
        rw [hnt3]
        intro hcontra
        cases hcontra)] at h4
      cases h4
      rfl

theorem c5_witness :
    MeshInv stateThree ∧ stateThree.nextUpdateTime = none ∧
    stateThree.timeoutAt = none ∧
    slowDeleteRun stateThree [Event.deleteE 10 0 0, Event.deleteE 20 0 1] = true ∧
    (∃ s1 s2 s3,
      runValid stateThree [Event.deleteE 10 0 0, Event.deleteE 20 0 1] = some s1 ∧
      s1.updates = stateThree.updates ∧
      s1.timeoutAt = some (10 + 1000) ∧
      s1.nextUpdateTime = some (UpdTime.time (10 + 1000)) ∧
      validEvent s1 (Event.timerFireE (10 + 1000)) = true ∧
      applyEvent (Event.timerFireE (10 + 1000)) s1 = some s2 ∧
      s2.updates = stateThree.updates ∧
      validEvent s2 (Event.onFrameE 1010) = true ∧
      applyEvent (Event.onFrameE 1010) s2 = some s3 ∧
      s3.updates = stateThree.updates + 1 ∧ s3.nextUpdateTime = none ∧
      (∀ u' s4, applyEvent (Event.onFrameE u') s3 = some s4 →
        s4.updates = s3.updates)) :=
  ⟨by decide, by decide, by decide, by decide,
    c5_debounce_coalescing stateThree 10 1010 (Event.deleteE 10 0 0)
      [Event.deleteE 20 0 1] (by decide) (by decide) (by decide) (by decide)
      (by decide) (by decide)⟩

end UikitAlloc

namespace UikitAlloc

/-! ## Structural invariants of the allocator (towards C1) -/

theorem totalSpan_cons (b : Bucket) (rest : List Bucket) :
    totalSpan (b :: rest) = b.elements.length + totalSpan rest := by
  simp [totalSpan, bucketSpan]

theorem contigFrom_chain' : ∀ (bs : List Bucket) (start : Nat), ContigFrom start bs →
    bs.Chain' (fun a c => c.offset = a.offset + a.elements.length) := by
  intro bs
  induction bs with
  | nil => intro start _; exact List.chain'_nil
  | cons b rest ih =>
    intro start hc
    rw [List.chain'_cons']
    refine ⟨?_, ih (b.offset + b.elements.length) hc.2⟩
    intro c hcmem
    cases rest with
    | nil => cases hcmem
    | cons c0 rest0 =>
      cases hcmem
      exact hc.2.1

theorem contig_occupied_bound : ∀ (bs : List Bucket) (start : Nat), ContigFrom start bs →
    ∀ b ∈ bs, b.offset + b.elements.length ≤ start + totalSpan bs := by
  intro bs
  induction bs with
  | nil => intro start _ b hb; cases hb
  | cons b0 rest ih =>
    intro start hc b hb
    rw [totalSpan_cons]
    cases hb with
    | head => rw [hc.1]; omega
    | tail _ hb' =>
      have := ih (b0.offset + b0.elements.length) hc.2 b hb'
      rw [hc.1] at this
      omega

/-- Preservation of sortedness and contiguity by the insertion pass,
together with a bound on which bucket indices can appear. -/
theorem addInto_inv (cap id bktIdx : Nat) (arr : List Nat) :
    ∀ (bs : List Bucket) (start : Nat),
      IdxSorted bs → ContigFrom start bs →
      IdxSorted (addIntoBuckets cap id bktIdx arr bs start).1 ∧
      ContigFrom start (addIntoBuckets cap id bktIdx arr bs start).1 ∧
      (∀ c ∈ (addIntoBuckets cap id bktIdx arr bs start).1,
        c.bucketIndex = bktIdx ∨ c.bucketIndex ∈ bs.map Bucket.bucketIndex) := by
  intro bs
  induction bs with
  | nil =>
    intro start _ _
    unfold IdxSorted
    unfold addIntoBuckets
    by_cases hcap : start < cap
    · rw [if_pos hcap]
      refine ⟨List.pairwise_singleton _ _, ⟨rfl, trivial⟩, ?_⟩
      intro c hc
      cases hc with
      | head => exact Or.inl rfl
      | tail _ hmem => cases hmem
    · rw [if_neg hcap]
      refine ⟨List.pairwise_singleton _ _, ⟨rfl, trivial⟩, ?_⟩
      intro c hc
      cases hc with
      | head => exact Or.inl rfl
      | tail _ hmem => cases hmem
  | cons b rest ih =>
    intro start hs hc
    unfold IdxSorted at hs ⊢
    unfold addIntoBuckets
    by_cases hlt : bktIdx < b.bucketIndex
    · rw [if_pos hlt]
      rw [List.pairwise_cons] at hs
      refine ⟨?_, ?_, ?_⟩
      · rw [List.pairwise_cons]
        constructor
        · intro c hcmem
          cases hcmem with
          | head => exact hlt
          | tail _ hmem => exact Nat.lt_trans hlt (hs.1 c hmem)
        · rw [List.pairwise_cons]
          exact hs
      · refine ⟨rfl, ?_⟩
        show ContigFrom (start + List.length []) (b :: rest)
        rw [show start + List.length ([] : List (Option Nat)) = start from rfl]
        exact hc
      · intro c hcmem
        cases hcmem with
        | head => exact Or.inl rfl
        | tail _ hmem =>
          exact Or.inr (List.mem_map_of_mem Bucket.bucketIndex hmem)
    · rw [if_neg hlt]
      by_cases heq : bktIdx = b.bucketIndex
      · rw [if_pos heq]
        by_cases hre : rest.isEmpty
        · have hrest : rest = [] := by
            cases rest with
            | nil => rfl
            | cons x xs => cases hre
          subst hrest
          rw [if_pos hre]
          by_cases hroom : b.offset + b.elements.length < cap
          · rw [if_pos hroom]
            refine ⟨List.pairwise_singleton _ _, ⟨hc.1, trivial⟩, ?_⟩
            intro c hcmem
            cases hcmem with
            | head => exact Or.inl heq.symm
            | tail _ hmem => cases hmem
          · rw [if_neg hroom]
            refine ⟨List.pairwise_singleton _ _, ⟨hc.1, trivial⟩, ?_⟩
            intro c hcmem
            cases hcmem with
            | head => exact Or.inl heq.symm
            | tail _ hmem => cases hmem
        · rw [if_neg hre]
          rw [List.pairwise_cons] at hs
          refine ⟨?_, ⟨hc.1, hc.2⟩, ?_⟩
          · rw [List.pairwise_cons]
            exact ⟨fun c hcmem => hs.1 c hcmem, hs.2⟩
          · intro c hcmem
            cases hcmem with
            | head => exact Or.inl heq.symm
            | tail _ hmem =>
              exact Or.inr (List.mem_cons_of_mem _ (List.mem_map_of_mem Bucket.bucketIndex hmem))
      · rw [if_neg heq]
        have hgt : b.bucketIndex < bktIdx := by omega
        cases hrec : addIntoBuckets cap id bktIdx arr rest (b.offset + b.elements.length) with
        | mk rest' tail =>
          cases tail with
          | mk arr' needs =>
            rw [List.pairwise_cons] at hs
            have ihres := ih (b.offset + b.elements.length) hs.2 hc.2
            rw [hrec] at ihres
            dsimp only at ihres ⊢
            refine ⟨?_, ⟨hc.1, ihres.2.1⟩, ?_⟩
            · rw [List.pairwise_cons]
              refine ⟨?_, ihres.1⟩
              intro c hcmem
              cases ihres.2.2 c hcmem with
              | inl hidx => rw [hidx]; exact hgt
              | inr hidx =>
                rw [List.mem_map] at hidx
                obtain ⟨c0, hc0mem, hc0eq⟩ := hidx
                rw [← hc0eq]
                exact hs.1 c0 hc0mem
            · intro c hcmem
              cases hcmem with
              | head => exact Or.inr (List.mem_cons_self _ _)
              | tail _ hmem =>
                cases ihres.2.2 c hmem with
                | inl h => exact Or.inl h
                | inr h => exact Or.inr (List.mem_cons_of_mem _ h)

end UikitAlloc

namespace UikitAlloc

/-- Preservation of sortedness and contiguity by the removal pass. -/
theorem removeInto_inv (bktIdx slotIdx : Nat) (arr : List Nat) :
    ∀ (bs : List Bucket) (start : Nat),
      IdxSorted bs → ContigFrom start bs →
      IdxSorted (removeIntoBuckets bktIdx slotIdx arr bs).1 ∧
      ContigFrom start (removeIntoBuckets bktIdx slotIdx arr bs).1 ∧
      (∀ c ∈ (removeIntoBuckets bktIdx slotIdx arr bs).1,
        c.bucketIndex ∈ bs.map Bucket.bucketIndex) := by
  intro bs
  induction bs with
  | nil =>
    intro start _ _
    exact ⟨List.Pairwise.nil, trivial, fun c hc => absurd hc (List.not_mem_nil c)⟩
  | cons b rest ih =>
    intro start hs hc
    unfold IdxSorted at hs ⊢
    unfold removeIntoBuckets
    by_cases heq : b.bucketIndex = bktIdx
    · rw [if_pos heq]
      by_cases hfast : rest.isEmpty && (slotIdx + 1 == b.elements.length)
      · rw [if_pos hfast]
        dsimp only
        by_cases hdrop : (b.elements.dropLast.isEmpty && b.pending.isEmpty) = true
        · rw [if_pos hdrop]
          exact ⟨List.Pairwise.nil, trivial, fun c hcmem => absurd hcmem (List.not_mem_nil c)⟩
        · rw [if_neg hdrop]
          refine ⟨List.pairwise_singleton _ _, ⟨hc.1, trivial⟩, ?_⟩
          intro c hcmem
          cases hcmem with
          | head => exact List.mem_cons_self _ _
          | tail _ hmem => cases hmem
      · rw [if_neg hfast]
        rw [List.pairwise_cons] at hs
        refine ⟨?_, ⟨hc.1, ?_⟩, ?_⟩
        · rw [List.pairwise_cons]
          exact ⟨fun c hcmem => hs.1 c hcmem, hs.2⟩
        · show ContigFrom (b.offset + (b.elements.set slotIdx none).length) rest
          rw [List.length_set]
          exact hc.2
        · intro c hcmem
          cases hcmem with
          | head => exact List.mem_cons_self _ _
          | tail _ hmem =>
            exact List.mem_cons_of_mem _ (List.mem_map_of_mem Bucket.bucketIndex hmem)
    · rw [if_neg heq]
      cases hrec : removeIntoBuckets bktIdx slotIdx arr rest with
      | mk rest' tail =>
        cases tail with
        | mk arr' needs =>
          rw [List.pairwise_cons] at hs
          have ihres := ih (b.offset + b.elements.length) hs.2 hc.2
          rw [hrec] at ihres
          dsimp only at ihres ⊢
          refine ⟨?_, ⟨hc.1, ihres.2.1⟩, ?_⟩
          · rw [List.pairwise_cons]
            refine ⟨?_, ihres.1⟩
            intro c hcmem
            have hidx := ihres.2.2 c hcmem
            rw [List.mem_map] at hidx
            obtain ⟨c0, hc0mem, hc0eq⟩ := hidx
            rw [← hc0eq]
            exact hs.1 c0 hc0mem
          · intro c hcmem
            cases hcmem with
            | head => exact List.mem_cons_self _ _
            | tail _ hmem =>
              exact List.mem_cons_of_mem _ (ihres.2.2 c hmem)

/-- Preservation of sortedness and contiguity by removal of a pending
element. -/
theorem removePending_inv (bktIdx pendingIdx : Nat) :
    ∀ (bs : List Bucket) (start : Nat),
      IdxSorted bs → ContigFrom start bs →
      IdxSorted (removePendingBuckets bktIdx pendingIdx bs) ∧
      ContigFrom start (removePendingBuckets bktIdx pendingIdx bs) ∧
      (∀ c ∈ removePendingBuckets bktIdx pendingIdx bs,
        c.bucketIndex ∈ bs.map Bucket.bucketIndex) := by
  intro bs
  induction bs with
  | nil =>
    intro start _ _
    exact ⟨List.Pairwise.nil, trivial, fun c hc => absurd hc (List.not_mem_nil c)⟩
  | cons b rest ih =>
    intro start hs hc
    unfold IdxSorted at hs ⊢
    unfold removePendingBuckets
    rw [List.pairwise_cons] at hs
    by_cases heq : b.bucketIndex = bktIdx
    · rw [if_pos heq]
      by_cases hdrop : (b.elements.isEmpty && (b.pending.eraseIdx pendingIdx).isEmpty) = true
      · rw [if_pos hdrop]
        have hlen : b.elements.length = 0 := by
          rw [Bool.and_eq_true] at hdrop
          cases he : b.elements with
          | nil => rfl
          | cons x xs => rw [he] at hdrop; cases hdrop.1
        refine ⟨hs.2, ?_, ?_⟩
        · have := hc.2
          rw [hlen, Nat.add_zero, hc.1] at this
          exact this
        · intro c hcmem
          exact List.mem_cons_of_mem _ (List.mem_map_of_mem Bucket.bucketIndex hcmem)
      · rw [if_neg hdrop]
        refine ⟨?_, ⟨hc.1, hc.2⟩, ?_⟩
        · rw [List.pairwise_cons]
          exact ⟨fun c hcmem => hs.1 c hcmem, hs.2⟩
        · intro c hcmem
          cases hcmem with
          | head => exact List.mem_cons_self _ _
          | tail _ hmem =>
            exact List.mem_cons_of_mem _ (List.mem_map_of_mem Bucket.bucketIndex hmem)
    · rw [if_neg heq]
      have ihres := ih (b.offset + b.elements.length) hs.2 hc.2
      refine ⟨?_, ⟨hc.1, ihres.2.1⟩, ?_⟩
      · rw [List.pairwise_cons]
        refine ⟨?_, ihres.1⟩
        intro c hcmem
        have hidx := ihres.2.2 c hcmem
        rw [List.mem_map] at hidx
        obtain ⟨c0, hc0mem, hc0eq⟩ := hidx
        rw [← hc0eq]
        exact hs.1 c0 hc0mem
      · intro c hcmem
        cases hcmem with
        | head => exact List.mem_cons_self _ _
        | tail _ hmem => exact List.mem_cons_of_mem _ (ihres.2.2 c hmem)

/-- The rebuilding pass of the rearrangement establishes contiguity
from its starting slot and preserves sortedness. -/
theorem rebuild_inv : ∀ (bs : List Bucket) (start : Nat), IdxSorted bs →
    IdxSorted (rebuildBuckets bs start) ∧ ContigFrom start (rebuildBuckets bs start) ∧
    (∀ c ∈ rebuildBuckets bs start, c.bucketIndex ∈ bs.map Bucket.bucketIndex) := by
  intro bs
  induction bs with
  | nil =>
    intro start _
    exact ⟨List.Pairwise.nil, trivial, fun c hc => absurd hc (List.not_mem_nil c)⟩
  | cons b rest ih =>
    intro start hs
    unfold IdxSorted at hs ⊢
    unfold rebuildBuckets
    rw [List.pairwise_cons] at hs
    by_cases hids : (liveElems b ++ b.pending).isEmpty = true
    · rw [if_pos hids]
      have ihres := ih start hs.2
      refine ⟨ihres.1, ihres.2.1, ?_⟩
      intro c hcmem
      exact List.mem_cons_of_mem _ (ihres.2.2 c hcmem)
    · rw [if_neg hids]
      have ihres := ih (start + (liveElems b ++ b.pending).length) hs.2
      refine ⟨?_, ⟨rfl, ?_⟩, ?_⟩
      · rw [List.pairwise_cons]
        refine ⟨?_, ihres.1⟩
        intro c hcmem
        have hidx := ihres.2.2 c hcmem
        rw [List.mem_map] at hidx
        obtain ⟨c0, hc0mem, hc0eq⟩ := hidx
        rw [← hc0eq]
        exact hs.1 c0 hc0mem
      · show ContigFrom (start + ((liveElems b ++ b.pending).map some).length) _
        rw [List.length_map]
        exact ihres.2.1
      · intro c hcmem
        cases hcmem with
        | head => exact List.mem_cons_self _ _
        | tail _ hmem => exact List.mem_cons_of_mem _ (ihres.2.2 c hmem)

end UikitAlloc

namespace UikitAlloc

/-- Structural allocator invariant of a group state: buckets sorted by
index and contiguous from slot 0. -/
def AllocInv (s : GroupState) : Prop :=
  IdxSorted s.buckets ∧ ContigFrom 0 s.buckets

theorem insert_buckets (s s' : GroupState) (b id : Nat) (h : insert s b id = some s') :
    s'.buckets = (addIntoBuckets s.bufferElementSize id b s.matrixArray s.buckets 0).1 := by
  unfold insert at h
  cases h3 : addIntoBuckets s.bufferElementSize id b s.matrixArray s.buckets 0 with
  | mk bs tail =>
    cases tail with
    | mk arr needs =>
      rw [h3] at h
      dsimp only at h ⊢
      cases needs with
      | true => rw [if_pos rfl] at h; cases h; rfl
      | false =>
        rw [if_neg (by simp)] at h
        exact (updateCount_spec _ _ h).2.2.1

theorem deleteOp_buckets (s s' : GroupState) (now b i : Nat)
    (h : deleteOp s now b i = some s') :
    s'.buckets = (removeIntoBuckets b i s.matrixArray s.buckets).1 := by
  unfold deleteOp at h
  cases h3 : removeIntoBuckets b i s.matrixArray s.buckets with
  | mk bs tail =>
    cases tail with
    | mk arr needs =>
      rw [h3] at h
      dsimp only at h ⊢
      cases needs with
      | true =>
        rw [if_pos rfl] at h
        cases h
        exact (requestUpdate_fields _ now 1000).2.2.2.2.1
      | false =>
        rw [if_neg (by simp)] at h
        exact (updateCount_spec _ _ h).2.2.1

theorem deletePendingOp_buckets (s s' : GroupState) (now b i : Nat)
    (h : deletePendingOp s now b i = some s') :
    s'.buckets = removePendingBuckets b i s.buckets := by
  unfold deletePendingOp at h
  cases h
  exact (requestUpdate_fields _ now 1000).2.2.2.2.1

theorem update_buckets (s s' : GroupState) (h : update s = some s') :
    s'.buckets = s.buckets ∨ s'.buckets = rebuildBuckets s.buckets 0 := by
  by_cases h0 : s.elementCount = 0
  · rw [update_eq_zero s h0] at h
    cases h
    exact Or.inl rfl
  · by_cases h1 : s.bufferElementSize < s.elementCount
    · rw [update_eq_grow s h1] at h
      exact Or.inr ((setMeshCount_spec _ _ h).2.2.2.1)
    · by_cases h2 : 3 * s.elementCount ≤ s.bufferElementSize
      · rw [update_eq_shrink s h0 h1 h2] at h
        exact Or.inr ((setMeshCount_spec _ _ h).2.2.2.1)
      · rw [update_eq_inplace s h0 h1 h2] at h
        exact Or.inr ((setMeshCount_spec _ _ h).2.2.2.1)

theorem step_allocInv (s s' : GroupState) (hstep : Step s s') (hinv : AllocInv s) :
    AllocInv s' := by
  cases hstep with
  | mk e s s' hv ha =>
    cases e with
    | insertE t b id =>
      have hb := insert_buckets _ _ _ _ ha
      have h := addInto_inv s.bufferElementSize id b s.matrixArray s.buckets 0 hinv.1 hinv.2
      rw [show ({ s with clock := t } : GroupState).buckets = s.buckets from rfl] at hb
      constructor
      · rw [hb]; exact h.1
      · rw [hb]; exact h.2.1
    | deleteE t b i =>
      have hb := deleteOp_buckets _ _ _ _ _ ha
      have h := removeInto_inv b i s.matrixArray s.buckets 0 hinv.1 hinv.2
      constructor
      · rw [hb]; exact h.1
      · rw [hb]; exact h.2.1
    | deletePendingE t b i =>
      have hb := deletePendingOp_buckets _ _ _ _ _ ha
      have h := removePending_inv b i s.buckets 0 hinv.1 hinv.2
      constructor
      · rw [hb]; exact h.1
      · rw [hb]; exact h.2.1
    | onFrameE t =>
      replace ha : onFrame { s with clock := t } = some s' := ha
      unfold onFrame at ha
      split at ha
      · have hb := update_buckets _ _ ha
        cases hb with
        | inl hb => exact ⟨by rw [hb]; exact hinv.1, by rw [hb]; exact hinv.2⟩
        | inr hb =>
          have h := rebuild_inv s.buckets 0 hinv.1
          exact ⟨by rw [hb]; exact h.1, by rw [hb]; exact h.2.1⟩
      · cases ha; exact hinv
    | timerFireE t => cases ha; exact hinv

theorem reachable_allocInv (s : GroupState) (hr : Reachable s) : AllocInv s := by
  induction hr with
  | refl => exact ⟨List.Pairwise.nil, trivial⟩
  | tail _ hstep ih => exact step_allocInv _ _ hstep ih

end UikitAlloc

namespace UikitAlloc

/-- C1: in every reachable state the buckets are sorted strictly
ascending by bucket index, every adjacent pair satisfies
`offset(next) = offset(prev) + count(prev)` (counting the slots a
bucket spans, deferred-removal holes included, as the source's
`elements.length` does), and every occupied slot lies strictly below
the sum of the bucket counts: the buckets partition a contiguous prefix
of slots with no gaps. -/
theorem c1_contiguity_invariant (s : GroupState) (hr : Reachable s) :
    s.buckets.Pairwise (fun a c => a.bucketIndex < c.bucketIndex) ∧
    s.buckets.Chain' (fun a c => c.offset = a.offset + a.elements.length) ∧
    (∀ b ∈ s.buckets, ∀ i < b.elements.length, b.offset + i < totalSpan s.buckets) := by
  have hinv := reachable_allocInv s hr
  refine ⟨hinv.1, contigFrom_chain' s.buckets 0 hinv.2, ?_⟩
  intro b hb i hi
  have hbound := contig_occupied_bound s.buckets 0 hinv.2 b hb
  omega

theorem c1_witness :
    stateThree.buckets.Pairwise (fun a c => a.bucketIndex < c.bucketIndex) ∧
    stateThree.buckets.Chain' (fun a c => c.offset = a.offset + a.elements.length) ∧
    (∀ b ∈ stateThree.buckets, ∀ i < b.elements.length,
      b.offset + i < totalSpan stateThree.buckets) :=
  c1_contiguity_invariant stateThree stateThree_reachable

end UikitAlloc

namespace UikitAlloc

/-! ## Fast-path characterizations (towards C6, C8, C10) -/

theorem getD_set_same : ∀ (arr : List Nat) (k : Nat), (arr.set k 0).getD k 0 = 0 := by
  intro arr
  induction arr with
  | nil => intro k; simp [List.getD]
  | cons a l ih =>
    intro k
    cases k with
    | zero => rfl
    | succ k => simpa [List.getD] using ih k

theorem getLast?_some_of_ne_nil : ∀ (l : List Bucket), l ≠ [] → ∃ x, l.getLast? = some x := by
  intro l
  induction l with
  | nil => intro h; exact absurd rfl h
  | cons b rest ih =>
    intro _
    cases rest with
    | nil => exact ⟨b, rfl⟩
    | cons c rest' =>
      obtain ⟨x, hx⟩ := ih (by intro hcontra; cases hcontra)
      exact ⟨x, by rw [List.getLast?_cons_cons]; exact hx⟩

/-- Removal of the element in the final slot of the last bucket always
takes the fast path: no rearrangement, and the freed slot is cleared in
place. -/
theorem removeFast_spec (bktIdx slotIdx : Nat) (arr : List Nat) :
    ∀ (bs : List Bucket) (lb : Bucket),
      bs.Pairwise (fun a c => a.bucketIndex < c.bucketIndex) →
      bs.getLast? = some lb → bktIdx = lb.bucketIndex →
      slotIdx + 1 = lb.elements.length →
      (removeIntoBuckets bktIdx slotIdx arr bs).2.2 = false ∧
      (removeIntoBuckets bktIdx slotIdx arr bs).2.1 = arr.set (lb.offset + slotIdx) 0 := by
  intro bs
  induction bs with
  | nil => intro lb _ hlast; cases hlast
  | cons b rest ih =>
    intro lb hs hlast hidx hslot
    rw [List.pairwise_cons] at hs
    cases rest with
    | nil =>
      have hlb : lb = b := by
        rw [show (([b] : List Bucket).getLast? = some b) from rfl] at hlast
        cases hlast
        rfl
      subst hlb
      unfold removeIntoBuckets
      rw [if_pos hidx.symm]
      rw [if_pos (by
        rw [Bool.and_eq_true]
        exact ⟨rfl, by rw [Nat.beq_eq_true_eq]; exact hslot⟩)]
      dsimp only
      exact ⟨rfl, rfl⟩
    | cons c rest' =>
      have hlast' : (c :: rest').getLast? = some lb := by
        rw [List.getLast?_cons_cons] at hlast
        exact hlast
      have hlbmem : lb ∈ c :: rest' := by
        obtain ⟨hne, heq2⟩ := List.mem_getLast?_eq_getLast
          (show lb ∈ (c :: rest').getLast? from hlast')
        rw [heq2]
        exact List.getLast_mem hne
      have hblb : b.bucketIndex < lb.bucketIndex := hs.1 lb hlbmem
      unfold removeIntoBuckets
      rw [if_neg (by omega)]
      cases hrec : removeIntoBuckets bktIdx slotIdx arr (c :: rest') with
      | mk rest2 tail =>
        cases tail with
        | mk arr2 needs =>
          have ihres := ih lb hs.2 hlast' hidx hslot
          rw [hrec] at ihres
          exact ihres

/-- Inserting at the index of the existing last bucket takes the fast
path whenever the occupied span leaves slack inside the capacity. -/
theorem addInto_last_fast (cap id bktIdx : Nat) (arr : List Nat) :
    ∀ (bs : List Bucket) (start : Nat) (lb : Bucket),
      bs.Pairwise (fun a c => a.bucketIndex < c.bucketIndex) →
      ContigFrom start bs →
      bs.getLast? = some lb → bktIdx = lb.bucketIndex →
      start + totalSpan bs < cap →
      (addIntoBuckets cap id bktIdx arr bs start).2.2 = false := by
  intro bs
  induction bs with
  | nil => intro start lb _ _ hlast; cases hlast
  | cons b rest ih =>
    intro start lb hs hc hlast hidx hcap
    rw [List.pairwise_cons] at hs
    cases rest with
    | nil =>
      have hlb : lb = b := by
        rw [show (([b] : List Bucket).getLast? = some b) from rfl] at hlast
        cases hlast
        rfl
      subst hlb
      unfold addIntoBuckets
      rw [if_neg (by omega), if_pos hidx,
        if_pos (show (([] : List Bucket).isEmpty) = true from rfl)]
      rw [totalSpan_cons] at hcap
      rw [if_pos (by
        rw [hc.1]
        show start + lb.elements.length < cap
        have : totalSpan [] = 0 := rfl
        omega)]
    | cons c rest' =>
      have hlast' : (c :: rest').getLast? = some lb := by
        rw [List.getLast?_cons_cons] at hlast
        exact hlast
      have hlbmem : lb ∈ c :: rest' := by
        obtain ⟨hne, heq2⟩ := List.mem_getLast?_eq_getLast
          (show lb ∈ (c :: rest').getLast? from hlast')
        rw [heq2]
        exact List.getLast_mem hne
      have hblb : b.bucketIndex < lb.bucketIndex := hs.1 lb hlbmem
      unfold addIntoBuckets
      rw [if_neg (by omega), if_neg (by omega)]
      cases hrec : addIntoBuckets cap id bktIdx arr (c :: rest') (b.offset + b.elements.length) with
      | mk rest2 tail =>
        cases tail with
        | mk arr2 needs =>
          have ihres := ih (b.offset + b.elements.length) lb hs.2 hc.2 hlast' hidx (by
            rw [totalSpan_cons] at hcap
            rw [hc.1]
            omega)
          rw [hrec] at ihres
          exact ihres

/-- Inserting at a bucket index above every existing one takes the fast
path whenever the occupied span leaves slack inside the capacity. -/
theorem addInto_new_last_fast (cap id bktIdx : Nat) (arr : List Nat) :
    ∀ (bs : List Bucket) (start : Nat),
      ContigFrom start bs →
      (∀ b ∈ bs, b.bucketIndex < bktIdx) →
      start + totalSpan bs < cap →
      (addIntoBuckets cap id bktIdx arr bs start).2.2 = false := by
  intro bs
  induction bs with
  | nil =>
    intro start _ _ hcap
    unfold addIntoBuckets
    rw [if_pos (by
      have : totalSpan [] = 0 := rfl
      omega)]
  | cons b rest ih =>
    intro start hc hgt hcap
    have hb := hgt b (List.mem_cons_self _ _)
    unfold addIntoBuckets
    rw [if_neg (by omega), if_neg (by omega)]
    cases hrec : addIntoBuckets cap id bktIdx arr rest (b.offset + b.elements.length) with
    | mk rest2 tail =>
      cases tail with
      | mk arr2 needs =>
        have ihres := ih (b.offset + b.elements.length)
          hc.2 (fun x hx => hgt x (List.mem_cons_of_mem _ hx)) (by
            rw [totalSpan_cons] at hcap
            rw [hc.1]
            omega)
        rw [hrec] at ihres
        exact ihres

end UikitAlloc

namespace UikitAlloc

/-- Group with a stale live slot: after a slow-path delete of the first
of `stateTwo`'s two elements, slot 1 still holds element 1's data while
the element count is 1. -/
def stateStale : GroupState :=
  (runValid initState (traceTwo ++ [Event.deleteE 3 0 0])).getD initState

theorem stateStale_reachable : Reachable stateStale :=
  runValid_reachable (traceTwo ++ [Event.deleteE 3 0 0]) initState stateStale
    Relation.ReflTransGen.refl (by decide)

/-! ## C6 -/

/-- C6 counterexample: in a reachable full group (two elements, capacity
2), inserting as the new last element of the last bucket does trigger a
rearrangement — the allocator returns `needsRearrange = true` and the
insert requests a next-frame update. -/
theorem c6_counterexample :
    Reachable stateTwo ∧
    stateTwo.buckets.getLast? = some ⟨0, 0, [some 0, some 1], []⟩ ∧
    stateTwo.elementCount = stateTwo.bufferElementSize ∧
    insertNeeds stateTwo 0 9 = true ∧
    (applyEvent (Event.insertE 5 0 9) stateTwo).map GroupState.nextUpdateTime =
      some (some UpdTime.frame) :=
  ⟨stateTwo_reachable, by decide, by decide, by decide, by decide⟩

/-- C6 amended: inserting as the new last element of the last bucket
(either into the existing last bucket or at a bucket index above every
existing one) triggers no rearrangement provided the occupied span
leaves slack below the capacity; removing the element in the final slot
of the last bucket never triggers a rearrangement. -/
theorem c6_fast_path_amended (s : GroupState) (bktIdx id slotIdx : Nat) (lb : Bucket)
    (hsorted : s.buckets.Pairwise (fun a c => a.bucketIndex < c.bucketIndex))
    (hcontig : ContigFrom 0 s.buckets) :
    (s.buckets.getLast? = some lb → bktIdx = lb.bucketIndex →
      totalSpan s.buckets < s.bufferElementSize →
      insertNeeds s bktIdx id = false) ∧
    ((∀ b ∈ s.buckets, b.bucketIndex < bktIdx) →
      totalSpan s.buckets < s.bufferElementSize →
      insertNeeds s bktIdx id = false) ∧
    (s.buckets.getLast? = some lb → bktIdx = lb.bucketIndex →
      slotIdx + 1 = lb.elements.length →
      removeNeeds s bktIdx slotIdx = false) := by
  refine ⟨?_, ?_, ?_⟩
  · intro hlast hidx hcap
    exact addInto_last_fast s.bufferElementSize id bktIdx s.matrixArray s.buckets 0 lb
      hsorted hcontig hlast hidx (by omega)
  · intro hgt hcap
    exact addInto_new_last_fast s.bufferElementSize id bktIdx s.matrixArray s.buckets 0
      hcontig hgt (by omega)
  · intro hlast hidx hslot
    exact (removeFast_spec bktIdx slotIdx s.matrixArray s.buckets lb
      hsorted hlast hidx hslot).1

theorem c6_witness :
    stateThree.buckets.getLast? = some ⟨0, 0, [some 0, some 1, some 2], []⟩ ∧
    totalSpan stateThree.buckets < stateThree.bufferElementSize ∧
    insertNeeds stateThree 0 9 = false ∧ removeNeeds stateThree 0 2 = false := by
  have h := c6_fast_path_amended stateThree 0 9 2 ⟨0, 0, [some 0, some 1, some 2], []⟩
    (by decide) (by decide)
  exact ⟨by decide, by decide, h.1 (by decide) (by decide) (by decide),
    h.2.2 (by decide) (by decide) (by decide)⟩

/-! ## C8 -/

/-- C8 counterexample: a reachable state in which a slot at an index at
or beyond the element count holds nonzero (live, non-cleared) data: a
slow-path delete leaves the surviving element's data in slot 1 while the
element count drops to 1, so the region at or past `elementCount` is not
zeroed. -/
theorem c8_counterexample :
    Reachable stateStale ∧ stateStale.elementCount = 1 ∧
    stateStale.elementCount ≤ 1 ∧
    getSlot stateStale.matrixArray 1 = dataOf 1 ∧ dataOf 1 ≠ 0 :=
  ⟨stateStale_reachable, by decide, by decide, by decide, by decide⟩

/-- C8 amended: the fast-path delete (removing the element in the final
slot of the last bucket) takes the fast path and clears the freed
slot's data block in place to zero. -/
theorem c8_fast_delete_clears_slot (s : GroupState) (now bktIdx slotIdx : Nat) (lb : Bucket)
    (hsorted : s.buckets.Pairwise (fun a c => a.bucketIndex < c.bucketIndex))
    (hlast : s.buckets.getLast? = some lb) (hidx : bktIdx = lb.bucketIndex)
    (hslot : slotIdx + 1 = lb.elements.length) :
    removeNeeds s bktIdx slotIdx = false ∧
    (∀ s', deleteOp s now bktIdx slotIdx = some s' →
      getSlot s'.matrixArray (lb.offset + slotIdx) = 0) := by
  obtain ⟨hneeds0, harr0⟩ :=
    removeFast_spec bktIdx slotIdx s.matrixArray s.buckets lb hsorted hlast hidx hslot
  constructor
  · exact hneeds0
  · intro s' h
    unfold deleteOp at h
    cases h3 : removeIntoBuckets bktIdx slotIdx s.matrixArray s.buckets with
    | mk bs tail =>
      cases tail with
      | mk arr needs =>
        rw [h3] at h hneeds0 harr0
        dsimp only at h hneeds0 harr0
        subst hneeds0
        rw [if_neg (by simp)] at h
        have hm := (updateCount_spec _ _ h).2.2.2.1
        rw [hm]
        show arr.getD (lb.offset + slotIdx) 0 = 0
        rw [harr0]
        exact getD_set_same s.matrixArray (lb.offset + slotIdx)

theorem c8_witness :
    stateThree.buckets.getLast? = some ⟨0, 0, [some 0, some 1, some 2], []⟩ ∧
    (removeNeeds stateThree 0 2 = false ∧
      (∀ s', deleteOp stateThree 5 0 2 = some s' →
        getSlot s'.matrixArray
          ((⟨0, 0, [some 0, some 1, some 2], []⟩ : Bucket).offset + 2) = 0)) :=
  ⟨by decide,
    c8_fast_delete_clears_slot stateThree 5 0 2 ⟨0, 0, [some 0, some 1, some 2], []⟩
      (by decide) (by decide) (by decide) (by decide)⟩

/-! ## C10 -/

theorem addInto_ne_nil (cap id bktIdx : Nat) (arr : List Nat) :
    ∀ (bs : List Bucket) (start : Nat), (addIntoBuckets cap id bktIdx arr bs start).1 ≠ [] := by
  intro bs
  induction bs with
  | nil =>
    intro start
    unfold addIntoBuckets
    by_cases hcap : start < cap
    · rw [if_pos hcap]; intro h; cases h
    · rw [if_neg hcap]; intro h; cases h
  | cons b rest ih =>
    intro start
    unfold addIntoBuckets
    by_cases hlt : bktIdx < b.bucketIndex
    · rw [if_pos hlt]; intro h; cases h
    · rw [if_neg hlt]
      by_cases heq : bktIdx = b.bucketIndex
      · rw [if_pos heq]
        by_cases hre : rest.isEmpty
        · rw [if_pos hre]
          by_cases hroom : b.offset + b.elements.length < cap
          · rw [if_pos hroom]; intro h; cases h
          · rw [if_neg hroom]; intro h; cases h
        · rw [if_neg hre]; intro h; cases h
      · rw [if_neg heq]
        cases hrec : addIntoBuckets cap id bktIdx arr rest (b.offset + b.elements.length) with
        | mk rest2 tail =>
          cases tail with
          | mk arr2 needs => intro h; cases h

theorem updateCount_isSome (s : GroupState) (h : s.buckets ≠ []) :
    (updateCount s).isSome = true := by
  obtain ⟨x, hx⟩ := getLast?_some_of_ne_nil s.buckets h
  unfold updateCount
  rw [hx]
  cases hm : s.mesh with
  | none => rfl
  | some m => rfl

/-- C10 counterexample: a reachable single-element group; the fast-path
delete of its final remaining element empties the bucket array (the
emptied bucket is removed), and `updateCount()`'s unguarded read of
`buckets[buckets.length - 1]` then faults. -/
theorem c10_counterexample :
    Reachable stateOne ∧ validEvent stateOne (Event.deleteE 2 0 0) = true ∧
    removeNeeds stateOne 0 0 = false ∧
    applyEvent (Event.deleteE 2 0 0) stateOne = none :=
  ⟨stateOne_reachable, by decide, by decide, by decide⟩

/-- C10 amended: after every insert (fast or slow path) the bucket
array is non-empty, so `updateCount()`'s unguarded read succeeds and
the insert never faults; a delete succeeds whenever the allocator
leaves at least one bucket, and the fast-path delete faults exactly
when it empties the bucket array — the case of removing the group's
final remaining slot. -/
theorem c10_updateCount_safety_amended (s : GroupState) (t now bktIdx id slotIdx : Nat) :
    (applyEvent (Event.insertE t bktIdx id) s).isSome = true ∧
    ((removeIntoBuckets bktIdx slotIdx s.matrixArray s.buckets).1 ≠ [] →
      (deleteOp s now bktIdx slotIdx).isSome = true) ∧
    ((removeIntoBuckets bktIdx slotIdx s.matrixArray s.buckets).2.2 = false →
      (removeIntoBuckets bktIdx slotIdx s.matrixArray s.buckets).1 = [] →
      deleteOp s now bktIdx slotIdx = none) := by
  refine ⟨?_, ?_, ?_⟩
  · show (insert { s with clock := t } bktIdx id).isSome = true
    unfold insert
    dsimp only
    cases h3 : addIntoBuckets s.bufferElementSize id bktIdx s.matrixArray s.buckets 0 with
    | mk bs tail =>
      cases tail with
      | mk arr needs =>
        dsimp only
        cases needs with
        | true => rw [if_pos rfl]; rfl
        | false =>
          rw [if_neg (by simp)]
          apply updateCount_isSome
          show bs ≠ []
          have hne := addInto_ne_nil s.bufferElementSize id bktIdx s.matrixArray s.buckets 0
          rw [h3] at hne
          exact hne
  · intro hne
    unfold deleteOp
    cases h3 : removeIntoBuckets bktIdx slotIdx s.matrixArray s.buckets with
    | mk bs tail =>
      cases tail with
      | mk arr needs =>
        rw [h3] at hne
        dsimp only at hne ⊢
        cases needs with
        | true => rw [if_pos rfl]; rfl
        | false =>
          rw [if_neg (by simp)]
          exact updateCount_isSome _ hne
  · intro hslow hnil
    unfold deleteOp
    cases h3 : removeIntoBuckets bktIdx slotIdx s.matrixArray s.buckets with
    | mk bs tail =>
      cases tail with
      | mk arr needs =>
        rw [h3] at hslow hnil
        dsimp only at hslow hnil ⊢
        subst hslow
        subst hnil
        rw [if_neg (by simp)]
        rfl

theorem c10_witness :
    (applyEvent (Event.insertE 5 0 9) stateThree).isSome = true ∧
    (removeIntoBuckets 0 2 stateThree.matrixArray stateThree.buckets).1 ≠ [] ∧
    (deleteOp stateThree 5 0 2).isSome = true :=
  ⟨(c10_updateCount_safety_amended stateThree 5 5 0 9 2).1, by decide,
    (c10_updateCount_safety_amended stateThree 5 5 0 9 2).2.1 (by decide)⟩

end UikitAlloc

namespace UikitAlloc

/-! ## List access helpers (towards C3) -/

theorem getD_append_lt {α : Type} (d : α) :
    ∀ (l l' : List α) (k : Nat), k < l.length → (l ++ l').getD k d = l.getD k d := by
  intro l
  induction l with
  | nil => intro l' k hk; cases hk
  | cons a rest ih =>
    intro l' k hk
    cases k with
    | zero => rfl
    | succ k => exact ih l' k (by simpa using hk)

theorem getD_append_ge {α : Type} (d : α) :
    ∀ (l l' : List α) (k : Nat), l.length ≤ k →
      (l ++ l').getD k d = l'.getD (k - l.length) d := by
  intro l
  induction l with
  | nil => intro l' k _; rfl
  | cons a rest ih =>
    intro l' k hk
    cases k with
    | zero => cases hk
    | succ k =>
      show (rest ++ l').getD k d = _
      rw [ih l' k (by simpa using hk)]
      have : k + 1 - (a :: rest).length = k - rest.length := by simp
      rw [this]

theorem getD_take_of_lt {α : Type} (d : α) :
    ∀ (l : List α) (n k : Nat), k < n → (l.take n).getD k d = l.getD k d := by
  intro l
  induction l with
  | nil => intro n k _; simp [List.getD]
  | cons a rest ih =>
    intro n k hk
    cases n with
    | zero => cases hk
    | succ n =>
      cases k with
      | zero => rfl
      | succ k => exact ih n k (by omega)

theorem getD_map_of_lt {α β : Type} (f : α → β) (d' : β) (d : α) :
    ∀ (l : List α) (k : Nat), k < l.length → (l.map f).getD k d' = f (l.getD k d) := by
  intro l
  induction l with
  | nil => intro k hk; cases hk
  | cons a rest ih =>
    intro k hk
    cases k with
    | zero => rfl
    | succ k => exact ih k (by simpa using hk)

theorem getD_mem_of_lt {α : Type} (d : α) :
    ∀ (l : List α) (k : Nat), k < l.length → l.getD k d ∈ l := by
  intro l
  induction l with
  | nil => intro k hk; cases hk
  | cons a rest ih =>
    intro k hk
    cases k with
    | zero => exact List.mem_cons_self _ _
    | succ k => exact List.mem_cons_of_mem _ (ih k (by simpa using hk))

/-! ## Facts about the live-element enumeration -/

theorem lws_mem_spec : ∀ (es : List (Option Nat)) (i0 : Nat) (p : Nat × Nat),
    p ∈ liveWithSlotsFrom i0 es →
    i0 ≤ p.1 ∧ p.1 - i0 < es.length ∧ es.getD (p.1 - i0) none = some p.2 := by
  intro es
  induction es with
  | nil => intro i0 p hp; cases hp
  | cons o rest ih =>
    intro i0 p hp
    cases o with
    | none =>
      have h := ih (i0 + 1) p hp
      refine ⟨by omega, by simp; omega, ?_⟩
      have hk : p.1 - i0 = (p.1 - (i0 + 1)) + 1 := by omega
      rw [hk]
      exact h.2.2
    | some id =>
      cases hp with
      | head =>
        refine ⟨Nat.le_refl _, by simp, ?_⟩
        rw [Nat.sub_self]
        rfl
      | tail _ hmem =>
        have h := ih (i0 + 1) p hmem
        refine ⟨by omega, by simp; omega, ?_⟩
        have hk : p.1 - i0 = (p.1 - (i0 + 1)) + 1 := by omega
        rw [hk]
        exact h.2.2

theorem lws_map_some : ∀ (ids : List Nat) (i0 : Nat),
    (liveWithSlotsFrom i0 (ids.map some)).map Prod.snd = ids := by
  intro ids
  induction ids with
  | nil => intro i0; rfl
  | cons id rest ih =>
    intro i0
    show id :: (liveWithSlotsFrom (i0 + 1) (rest.map some)).map Prod.snd = id :: rest
    rw [ih (i0 + 1)]

theorem getD_map_some : ∀ (ids : List Nat) (k : Nat), k < ids.length →
    (ids.map some).getD k none = some (ids.getD k 0) := by
  intro ids k hk
  exact getD_map_of_lt some none 0 ids k hk

/-! ## Lengths of the gathered values -/

theorem structCount_cons (b : Bucket) (rest : List Bucket) :
    structCount (b :: rest) = bucketNewCount b + structCount rest := by
  simp [structCount]

theorem gathered_length (arr : List Nat) : ∀ (bs : List Bucket),
    (gatheredValues arr bs).length = structCount bs := by
  intro bs
  induction bs with
  | nil => rfl
  | cons b rest ih =>
    show ((liveWithSlots b.elements).map _ ++ b.pending.map dataOf ++
      gatheredValues arr rest).length = _
    rw [structCount_cons]
    simp [bucketNewCount, liveElems, ih]
    omega

theorem resizeArray_length (arr : List Nat) (newLen : Nat) :
    (resizeArray arr newLen).length = newLen := by
  unfold resizeArray
  rw [List.length_append, List.length_take, List.length_replicate]
  omega

theorem rearrangeArray_length (arr : List Nat) (bs : List Bucket) :
    (rearrangeArray arr bs).length = arr.length := by
  unfold rearrangeArray
  rw [List.length_take, List.length_append, List.length_drop]
  omega

theorem rebuild_totalSpan : ∀ (bs : List Bucket) (start : Nat),
    totalSpan (rebuildBuckets bs start) = structCount bs := by
  intro bs
  induction bs with
  | nil => intro start; rfl
  | cons b rest ih =>
    intro start
    unfold rebuildBuckets
    rw [structCount_cons]
    by_cases hids : (liveElems b ++ b.pending).isEmpty = true
    · rw [if_pos hids]
      have hz : bucketNewCount b = 0 := by
        unfold bucketNewCount
        have : liveElems b ++ b.pending = [] := by
          cases hi : liveElems b ++ b.pending with
          | nil => rfl
          | cons x xs => rw [hi] at hids; cases hids
        have h1 : liveElems b = [] := by
          cases hl : liveElems b with
          | nil => rfl
          | cons x xs => rw [hl] at this; cases this
        have h2 : b.pending = [] := by
          cases hl : b.pending with
          | nil => rfl
          | cons x xs => rw [hl] at this; simp [h1, hl] at this
        rw [h1, h2]
        rfl
      rw [ih start, hz, Nat.zero_add]
    · rw [if_neg hids]
      rw [totalSpan_cons]
      show ((liveElems b ++ b.pending).map some).length + _ = _
      rw [List.length_map, List.length_append, ih]
      unfold bucketNewCount
      omega

end UikitAlloc

namespace UikitAlloc

/-- Core correspondence of the rearrangement pass: every live element of
the rebuilt buckets finds its data at its position in the gathered value
list (whose positions are the newly computed slots, relative to the
starting slot). -/
theorem rebuild_gather_pointwise (arr : List Nat) :
    ∀ (bs : List Bucket) (start : Nat),
      DataOkOn arr bs →
      ∀ b' ∈ rebuildBuckets bs start, ∀ i < b'.elements.length, ∀ id,
        b'.elements.getD i none = some id →
        start ≤ b'.offset + i ∧
        b'.offset + i - start < (gatheredValues arr bs).length ∧
        (gatheredValues arr bs).getD (b'.offset + i - start) 0 = dataOf id := by
  intro bs
  induction bs with
  | nil =>
    intro start _ b' hb'
    cases hb'
  | cons b rest ih =>
    intro start hdata b' hb' i hi id hid
    have hdrest : DataOkOn arr rest := fun c hc => hdata c (List.mem_cons_of_mem _ hc)
    have hgdef : gatheredValues arr (b :: rest) =
        ((liveWithSlots b.elements).map (fun p => getSlot arr (b.offset + p.1)) ++
          b.pending.map dataOf) ++ gatheredValues arr rest := rfl
    unfold rebuildBuckets at hb'
    by_cases hids : (liveElems b ++ b.pending).isEmpty = true
    · rw [if_pos hids] at hb'
      have hnil : liveElems b ++ b.pending = [] := by
        cases hcase : liveElems b ++ b.pending with
        | nil => rfl
        | cons x xs => rw [hcase] at hids; cases hids
      have hle : liveElems b = [] := by
        cases hcase : liveElems b with
        | nil => rfl
        | cons x xs => rw [hcase] at hnil; cases hnil
      have hpe : b.pending = [] := by
        rw [hle] at hnil
        simpa using hnil
      have hlws : liveWithSlots b.elements = [] := by
        have := hle
        unfold liveElems at this
        exact List.map_eq_nil_iff.mp this
      have hg : gatheredValues arr (b :: rest) = gatheredValues arr rest := by
        rw [hgdef, hlws, hpe]
        rfl
      rw [hg]
      exact ih start hdrest b' hb' i hi id hid
    · rw [if_neg hids] at hb'
      have hlen1 : ((liveWithSlots b.elements).map
          (fun p => getSlot arr (b.offset + p.1))).length = (liveElems b).length := by
        rw [List.length_map]
        unfold liveElems
        rw [List.length_map]
      cases hb' with
      | head =>
        dsimp only at hi hid ⊢
        rw [List.length_map] at hi
        rw [getD_map_some _ _ hi] at hid
        have hideq : id = (liveElems b ++ b.pending).getD i 0 := by
          cases hid
          rfl
        have hpos : start + i - start = i := by omega
        rw [hgdef, hpos]
        refine ⟨by omega, ?_, ?_⟩
        · rw [List.length_append, List.length_append, hlen1, List.length_map]
          rw [List.length_append] at hi
          omega
        · rw [List.length_append] at hi
          by_cases hsplit : i < (liveElems b).length
          · rw [getD_append_lt _ _ _ _ (by
              rw [List.length_append, hlen1, List.length_map]
              omega)]
            rw [getD_append_lt _ _ _ _ (by rw [hlen1]; exact hsplit)]
            have hlws : i < (liveWithSlots b.elements).length := by
              unfold liveElems at hsplit
              rw [List.length_map] at hsplit
              exact hsplit
            rw [getD_map_of_lt _ _ (0, 0) _ _ hlws]
            have hp := lws_mem_spec b.elements 0
              ((liveWithSlots b.elements).getD i (0, 0))
              (getD_mem_of_lt (0, 0) _ i hlws)
            rw [Nat.sub_zero] at hp
            have hslot := hdata b (List.mem_cons_self _ _)
              ((liveWithSlots b.elements).getD i (0, 0)).1 hp.2.1
              ((liveWithSlots b.elements).getD i (0, 0)).2 hp.2.2
            rw [hslot, hideq]
            rw [getD_append_lt _ _ _ _ hsplit]
            unfold liveElems
            rw [getD_map_of_lt Prod.snd 0 (0, 0) _ _ hlws]
          · rw [getD_append_lt _ _ _ _ (by
              rw [List.length_append, hlen1, List.length_map]
              omega)]
            rw [getD_append_ge _ _ _ _ (by rw [hlen1]; omega)]
            rw [hideq, getD_append_ge _ _ _ _ (by omega)]
            have hidx2 : i - ((liveWithSlots b.elements).map
                (fun p => getSlot arr (b.offset + p.1))).length =
                i - (liveElems b).length := by rw [hlen1]
            rw [hidx2]
            have hplt : i - (liveElems b).length < b.pending.length := by omega
            rw [getD_map_of_lt dataOf 0 0 _ _ hplt]
      | tail _ hmem =>
        have ihres := ih (start + (liveElems b ++ b.pending).length) hdrest b' hmem i hi id hid
        have hlenids : ((liveWithSlots b.elements).map
            (fun p => getSlot arr (b.offset + p.1)) ++ b.pending.map dataOf).length =
            (liveElems b ++ b.pending).length := by
          rw [List.length_append, List.length_append, hlen1, List.length_map]
        refine ⟨by omega, ?_, ?_⟩
        · rw [hgdef, List.length_append, hlenids]
          omega
        · rw [hgdef]
          rw [getD_append_ge _ _ _ _ (by rw [hlenids]; omega)]
          have hidx : b'.offset + i - start -
              ((liveWithSlots b.elements).map
                (fun p => getSlot arr (b.offset + p.1)) ++ b.pending.map dataOf).length =
              b'.offset + i - (start + (liveElems b ++ b.pending).length) := by
            rw [hlenids]
            omega
          rw [hidx]
          exact ihres.2.2

end UikitAlloc

namespace UikitAlloc

theorem rearrange_getSlot (arr : List Nat) (bs : List Bucket) (k : Nat)
    (hk : k < (gatheredValues arr bs).length)
    (hlen : (gatheredValues arr bs).length ≤ arr.length) :
    (rearrangeArray arr bs).getD k 0 = (gatheredValues arr bs).getD k 0 := by
  show ((gatheredValues arr bs ++ arr.drop (gatheredValues arr bs).length).take
    arr.length).getD k 0 = _
  rw [getD_take_of_lt _ _ _ _ (by omega : k < arr.length)]
  exact getD_append_lt _ _ _ _ hk

/-- The rearrangement pass restores the data invariant: in the rebuilt
buckets every live element's newly computed slot holds its data,
provided the gathered values fit in the array. -/
theorem rearrange_dataOk (arr : List Nat) (bs : List Bucket)
    (hdata : DataOkOn arr bs) (hlen : structCount bs ≤ arr.length) :
    DataOkOn (rearrangeArray arr bs) (rebuildBuckets bs 0) := by
  intro b' hb' i hi
  intro id hid
  obtain ⟨_, hlt, hval⟩ := rebuild_gather_pointwise arr bs 0 hdata b' hb' i hi id hid
  rw [Nat.sub_zero] at hlt hval
  show (rearrangeArray arr bs).getD (b'.offset + i) 0 = dataOf id
  rw [rearrange_getSlot arr bs _ hlt (by rw [gathered_length]; exact hlen)]
  exact hval

/-- The reallocation copy of `resize()` preserves the data invariant so
long as every occupied slot lies inside both the old and new lengths. -/
theorem resize_dataOk (arr : List Nat) (bs : List Bucket) (newLen : Nat)
    (hdata : DataOkOn arr bs)
    (hbound : ∀ b ∈ bs, ∀ i < b.elements.length,
      b.offset + i < newLen ∧ b.offset + i < arr.length) :
    DataOkOn (resizeArray arr newLen) bs := by
  intro b hb i hi
  intro id hid
  obtain ⟨h1, h2⟩ := hbound b hb i hi
  show (resizeArray arr newLen).getD (b.offset + i) 0 = dataOf id
  unfold resizeArray
  rw [getD_append_lt _ _ _ _ (by rw [List.length_take]; omega)]
  rw [getD_take_of_lt _ _ _ _ h1]
  exact hdata b hb i hi id hid

theorem rebuild_allIds : ∀ (bs : List Bucket) (start : Nat),
    allIds (rebuildBuckets bs start) = allIds bs := by
  intro bs
  induction bs with
  | nil => intro start; rfl
  | cons b rest ih =>
    intro start
    unfold rebuildBuckets
    by_cases hids : (liveElems b ++ b.pending).isEmpty = true
    · rw [if_pos hids]
      have hnil : liveElems b ++ b.pending = [] := by
        cases hcase : liveElems b ++ b.pending with
        | nil => rfl
        | cons x xs => rw [hcase] at hids; cases hids
      show allIds (rebuildBuckets rest start) = (liveElems b ++ b.pending) ++ allIds rest
      rw [hnil, List.nil_append, ih]
    · rw [if_neg hids]
      show (liveElems ⟨b.bucketIndex, start, (liveElems b ++ b.pending).map some, []⟩ ++ []) ++
        allIds (rebuildBuckets rest (start + (liveElems b ++ b.pending).length)) =
        (liveElems b ++ b.pending) ++ allIds rest
      rw [List.append_nil, ih]
      have hlive : liveElems ⟨b.bucketIndex, start,
          (liveElems b ++ b.pending).map some, []⟩ = liveElems b ++ b.pending := by
        show (liveWithSlotsFrom 0 ((liveElems b ++ b.pending).map some)).map Prod.snd = _
        exact lws_map_some _ 0
      rw [hlive]

instance instDecIdxSorted (bs : List Bucket) : Decidable (IdxSorted bs) := by
  unfold IdxSorted
  infer_instance

instance instDecDataOkOn (arr : List Nat) (bs : List Bucket) :
    Decidable (DataOkOn arr bs) := by
  unfold DataOkOn
  infer_instance

instance instDecInv (s : GroupState) : Decidable (Inv s) := by
  unfold Inv
  infer_instance

/-- Across a nonempty `update()` no live element's data is lost: the
element multiset is preserved and every live element's slot holds its
data afterwards. -/
theorem update_dataOk (s : GroupState) (hinv : Inv s) (hn : 1 ≤ s.elementCount) :
    ∀ s', update s = some s' →
      allIds s'.buckets = allIds s.buckets ∧ DataOkOn s'.matrixArray s'.buckets := by
  obtain ⟨hsort, hcontig, hlen, _hmesh, hcount, hspan, hdata⟩ := hinv
  intro s' h
  have hocc : ∀ b ∈ s.buckets, ∀ i < b.elements.length,
      b.offset + i < totalSpan s.buckets := by
    intro b hb i hi
    have := contig_occupied_bound s.buckets 0 hcontig b hb
    omega
  by_cases h1 : s.bufferElementSize < s.elementCount
  · rw [update_eq_grow s h1] at h
    have hsp := setMeshCount_spec _ _ h
    have hbk := hsp.2.2.2.1
    rw [usba_buckets, resize_buckets, bumpUpdates_buckets] at hbk
    have hma := hsp.2.1
    rw [usba_matrixArray, resize_matrixArray, resize_buckets, bumpUpdates_matrixArray,
      bumpUpdates_elementCount, bumpUpdates_buckets] at hma
    have hd1 : DataOkOn (resizeArray s.matrixArray (ceil15 s.elementCount)) s.buckets := by
      apply resize_dataOk _ _ _ hdata
      intro b hb i hi
      have ho := hocc b hb i hi
      have hc15 := n_le_ceil15 s.elementCount
      constructor
      · omega
      · omega
    have hd2 := rearrange_dataOk (resizeArray s.matrixArray (ceil15 s.elementCount))
      s.buckets hd1 (by
        rw [resizeArray_length]
        have hc15 := n_le_ceil15 s.elementCount
        omega)
    constructor
    · rw [hbk, rebuild_allIds]
    · rw [hbk, hma]
      exact hd2
  · by_cases h2 : 3 * s.elementCount ≤ s.bufferElementSize
    · rw [update_eq_shrink s (by omega) h1 h2] at h
      have hsp := setMeshCount_spec _ _ h
      have hbk := hsp.2.2.2.1
      rw [resize_buckets, usba_buckets, bumpUpdates_buckets] at hbk
      have hma := hsp.2.1
      rw [resize_matrixArray, usba_matrixArray, usba_elementCount,
        bumpUpdates_elementCount, bumpUpdates_matrixArray, bumpUpdates_buckets] at hma
      have hd2 := rearrange_dataOk s.matrixArray s.buckets hdata (by omega)
      have hreb := rebuild_inv s.buckets 0 hsort
      have hd3 : DataOkOn (resizeArray (rearrangeArray s.matrixArray s.buckets)
          (ceil15 s.elementCount)) (rebuildBuckets s.buckets 0) := by
        apply resize_dataOk _ _ _ hd2
        intro b hb i hi
        have hb2 := contig_occupied_bound (rebuildBuckets s.buckets 0) 0 hreb.2.1 b hb
        rw [rebuild_totalSpan] at hb2
        have hc15 := n_le_ceil15 s.elementCount
        rw [rearrangeArray_length]
        omega
      constructor
      · rw [hbk, rebuild_allIds]
      · rw [hbk, hma]
        exact hd3
    · rw [update_eq_inplace s (by omega) h1 h2] at h
      have hsp := setMeshCount_spec _ _ h
      have hbk := hsp.2.2.2.1
      rw [usba_buckets, bumpUpdates_buckets] at hbk
      have hma := hsp.2.1
      rw [usba_matrixArray, bumpUpdates_matrixArray, bumpUpdates_buckets] at hma
      have hd2 := rearrange_dataOk s.matrixArray s.buckets hdata (by omega)
      constructor
      · rw [hbk, rebuild_allIds]
      · rw [hbk, hma]
        exact hd2

/-- C3: within one `update()` call the capacity grow (array
reallocation) happens before the rearrangement pass, and the
rearrangement pass happens before the capacity shrink (a shrink occurs
only with at least one element; at `n = 0` update() returns early and
performs neither); consequently no live element's per-instance data is
lost across `update()`: the live element list is preserved and every
live element's slot holds its data afterwards. -/
theorem c3_update_order_preserves_data (s : GroupState) (hinv : Inv s) :
    (s.bufferElementSize < s.elementCount →
      update s = setMeshCount (updateSortedBucketsAllocation (resize (bumpUpdates s)))) ∧
    (1 ≤ s.elementCount → 3 * s.elementCount ≤ s.bufferElementSize →
      update s = setMeshCount (resize (updateSortedBucketsAllocation (bumpUpdates s)))) ∧
    (1 ≤ s.elementCount → ∀ s', update s = some s' →
      allIds s'.buckets = allIds s.buckets ∧ DataOkOn s'.matrixArray s'.buckets) := by
  refine ⟨?_, ?_, ?_⟩
  · intro h1
    exact update_eq_grow s h1
  · intro hn h2
    exact update_eq_shrink s (by omega) (by omega) h2
  · intro hn
    exact update_dataOk s hinv hn

theorem c3_witness :
    Inv stateTwo ∧ 1 ≤ stateTwo.elementCount ∧
    (∀ s', update stateTwo = some s' →
      allIds s'.buckets = allIds stateTwo.buckets ∧
      DataOkOn s'.matrixArray s'.buckets) :=
  ⟨by decide, by decide,
    (c3_update_order_preserves_data stateTwo (by decide)).2.2 (by decide)⟩

end UikitAlloc
